import Mathlib

/-!
Verification of the gitpm package manager (src/gitpm.py) against its
natural-language specification.

Modelling conventions used throughout this development:

* Python strings are Lean `String`s; character-level operations are defined
  on `List Char` via `String.data` so that the Python semantics of
  `str.split`, `str.strip`, slicing and prefix/suffix tests can be stated
  and proved exactly.
* JSON values produced by `json.load` are modelled by the inductive `JVal`
  (numbers restricted to integers; the manifests relevant to the claims
  contain no floats).
* Operations that raise a Python exception (`TypeError`, `KeyError`,
  `IndexError`, `AttributeError` from probing dynamically-typed data) are
  modelled in the `Option` monad: `none` means the Python code raises.
* External effects (subprocesses, `sudo` probes, interactive prompts,
  recursive installs) are modelled by explicit environment records whose
  fields give the outcome of each external interaction; the filesystem is
  modelled by explicit directory/file maps threaded through the functions.

Set-up for the whole file.
-/

set_option maxHeartbeats 1000000

namespace Gitpm

/-! ### Python string primitives -/

/-- Python whitespace characters recognised by `str.strip()` (ASCII subset;
the inputs treated in this development contain no exotic Unicode blanks). -/
def isPySpace (c : Char) : Bool :=
  c = ' ' ∨ c = '\t' ∨ c = '\n' ∨ c = '\r' ∨ c = '\x0b' ∨ c = '\x0c'

/-- The list-level core of Python `str.strip()`. -/
def pyStripL (l : List Char) : List Char :=
  ((l.dropWhile isPySpace).reverse.dropWhile isPySpace).reverse

/-- Python `s.strip()`. -/
def pyStrip (s : String) : String :=
  String.mk (pyStripL s.data)

/-- The list-level core of Python `s.strip(c)` for a single character `c`. -/
def pyStripCharL (c : Char) (l : List Char) : List Char :=
  ((l.dropWhile (fun x => x = c)).reverse.dropWhile (fun x => x = c)).reverse

/-- Python `s.split(c)` for a one-character separator, on `List Char`:
splits at every occurrence of `c`; the result is always non-empty and may
contain empty fields. -/
def splitOnChar (c : Char) : List Char → List (List Char)
  | [] => [[]]
  | x :: xs =>
    if x = c then [] :: splitOnChar c xs
    else
      match splitOnChar c xs with
      | [] => [[x]]
      | y :: ys => (x :: y) :: ys

/-- Python `s.split(c)` at the `String` level. -/
def pySplit (c : Char) (s : String) : List String :=
  (splitOnChar c s.data).map String.mk

/-- Python `s.startswith(p)`. -/
def startsWithStr (p s : String) : Bool :=
  p.data.isPrefixOf s.data

/-- Python `s.endswith(p)`, via reversed prefix comparison. -/
def endsWithL (p l : List Char) : Bool :=
  p.reverse.isPrefixOf l.reverse

/-- Python `s[:-n]` for `n ≤ len(s)`, on lists. -/
def dropRightL (l : List Char) (n : Nat) : List Char :=
  l.take (l.length - n)

/-- Python `s.replace('.git', '')` (left-to-right, non-overlapping removal
of every occurrence of `".git"`), specialised to the only pattern the
source uses so that it is structurally recursive. -/
def removeDotGit : List Char → List Char
  | '.' :: 'g' :: 'i' :: 't' :: rest => removeDotGit rest
  | x :: xs => x :: removeDotGit xs
  | [] => []

/-- The segment of `l` after its last `'/'` (all of `l` when there is no
`'/'`); matches where Python `url.rfind('/')`-based searches look. -/
def afterLastSlash (l : List Char) : List Char :=
  (l.reverse.takeWhile (fun c => c ≠ '/')).reverse

/-- Python truthiness of a string: non-empty. -/
def pyTruthyStr (s : String) : Bool :=
  s ≠ ""

/-! ### Identity Resolver: `parse_repo_url` (src/gitpm.py lines 122-160)

The HTTP branch of the source calls `urllib.parse.urlparse` and uses only
the `scheme`, `netloc` and `path` components.  `urlparseSNP` reproduces
that computation for inputs that start with `http://` or `https://` (the
only inputs on which the source consults it): tab/CR/LF removal first (as
CPython `urlsplit` does), then scheme up to the first `':'`, netloc up to
the first of `'/' '?' '#'`, then the fragment (`'#'`), query (`'?'`) and,
as in `urlparse`, parameters (`';'` in the last path segment) are peeled
off the path.  CPython `urlsplit` raises `ValueError("Invalid IPv6 URL")`
when the netloc has an unbalanced `'['`/`']'`, and the program does not
catch it, so `parse_repo_url` is not total; `urlparse_raises` captures
that condition and the C4 theorem hypothesises inputs on which it is
provably `false` (newer interpreters additionally validate a bracketed
host, which those hypotheses — no brackets at all — also exclude). -/

/-- Unsafe-byte removal performed by CPython `urlsplit` (bpo-43882):
every `'\t'`, `'\r'`, `'\n'` is removed from the url before parsing. -/
def removeUnsafeBytes (l : List Char) : List Char :=
  l.filter (fun c => ¬ (c = '\t' ∨ c = '\r' ∨ c = '\n'))

/-- Split parameters off a path exactly as `urllib.parse._splitparams`
(reached only when `';'` occurs in the url): the `';'` is searched starting
at the last `'/'`. -/
def splitParamsPath (l : List Char) : List Char :=
  if ';' ∈ l then
    if '/' ∈ l then
      let seg := afterLastSlash l
      if ';' ∈ seg then
        l.take (l.length - seg.length) ++ seg.takeWhile (fun c => c ≠ ';')
      else l
    else l.takeWhile (fun c => c ≠ ';')
  else l

/-- The `(scheme, netloc, path)` components of `urlparse` for inputs
starting with `http://` or `https://`, after unsafe-byte removal.  This
is the value of a non-raising `urlparse` call; it is consulted only
where `urlparse_raises` is false. -/
def urlparseSNP (l : List Char) : List Char × List Char × List Char :=
  let l2 := removeUnsafeBytes l
  let scheme := l2.takeWhile (fun c => c ≠ ':')
  let r1 := (l2.dropWhile (fun c => c ≠ ':')).drop 1
  let r2 := r1.drop 2
  let netloc := r2.takeWhile (fun c => ¬ (c = '/' ∨ c = '?' ∨ c = '#'))
  let r3 := r2.dropWhile (fun c => ¬ (c = '/' ∨ c = '?' ∨ c = '#'))
  let r4 := r3.takeWhile (fun c => c ≠ '#')
  let r5 := r4.takeWhile (fun c => c ≠ '?')
  (scheme, netloc, splitParamsPath r5)

/-- The condition under which the `urlparse` call of the http(s) branch
raises `ValueError("Invalid IPv6 URL")`: an unbalanced `'['`/`']'` in the
netloc (after unsafe-byte removal).  The source does not catch it, so
`parse_repo_url` raises on exactly these inputs of that branch. -/
def urlparse_raises (l : List Char) : Bool :=
  let l2 := removeUnsafeBytes l
  let r2 := ((l2.dropWhile (fun c => c ≠ ':')).drop 1).drop 2
  let netloc := r2.takeWhile (fun c => ¬ (c = '/' ∨ c = '?' ∨ c = '#'))
  (('[' : Char) ∈ netloc ∧ (']' : Char) ∉ netloc)
    ∨ ((']' : Char) ∈ netloc ∧ ('[' : Char) ∉ netloc)

/-- The SSH-form regular expression of the source,
`re.match(r'git@([^:]+):([^/]+)/([^/]+)', url)`, applied to the part of
the url after `git@`.  Because the character classes exclude their own
delimiters, the greedy match is equivalent to this deterministic parse. -/
def gitAtMatch (l : List Char) : Option (List Char × List Char × List Char) :=
  let host := l.takeWhile (fun c => c ≠ ':')
  match l.dropWhile (fun c => c ≠ ':') with
  | [] => none
  | _ :: r2 =>
    if host = [] then none
    else
      let owner := r2.takeWhile (fun c => c ≠ '/')
      match r2.dropWhile (fun c => c ≠ '/') with
      | [] => none
      | _ :: r4 =>
        if owner = [] then none
        else
          let repo := r4.takeWhile (fun c => c ≠ '/')
          if repo = [] then none
          else some (host, owner, repo)

/-- The fallback of `parse_repo_url` (source lines 157-160): keep the url
(as already stripped), owner `"unknown"`, repo name the final
`'/'`-segment with every occurrence of `".git"` removed. -/
def parseUrlFallback (u : List Char) : String × String × String :=
  (String.mk u, "unknown",
    String.mk (removeDotGit (afterLastSlash u)))

/-- Embedding of `parse_repo_url` (source lines 122-160) on its
non-raising domain.  Deterministic, but not total: when the stripped,
`.git`-trimmed url enters the `http(s)://` branch with `urlparse_raises`
true, the program dies on an uncaught `ValueError` and this value
function does not describe it — the C4 theorem's hypotheses exclude that
set (and prove the exclusion). -/
def parse_repo_url (url : String) : String × String × String :=
  let u1 := pyStripL url.data
  let u2 := if endsWithL ".git".data u1 then dropRightL u1 4 else u1
  if startsWithStr "http://" (String.mk u2) ∨ startsWithStr "https://" (String.mk u2) then
    let snp := urlparseSNP u2
    match splitOnChar '/' (pyStripCharL '/' snp.2.2) with
    | user :: repo :: _ =>
      (String.mk snp.1 ++ "://" ++ String.mk snp.2.1 ++ "/" ++ String.mk user ++ "/"
        ++ String.mk repo ++ ".git", String.mk user, String.mk repo)
    | _ => parseUrlFallback u2
  else if startsWithStr "git@" (String.mk u2) then
    match gitAtMatch (u2.drop 4) with
    | some (host, user, repo) =>
      ("git@" ++ String.mk host ++ ":" ++ String.mk user ++ "/" ++ String.mk repo ++ ".git",
        String.mk user, String.mk repo)
    | none => parseUrlFallback u2
  else if '/' ∈ u2 ∧ ¬ startsWithStr "http" (String.mk u2) then
    match splitOnChar '/' u2 with
    | [user, repo] =>
      ("https://github.com/" ++ String.mk user ++ "/" ++ String.mk repo ++ ".git",
        String.mk user, String.mk repo)
    | _ => parseUrlFallback u2
  else parseUrlFallback u2

/-! ### Source Catalog: per-line parsing of `load_config`
(src/gitpm.py lines 101-115) -/

/-- One parsed catalog entry, as built by `load_config`. -/
structure RepoEntry where
  url : String
  branch : Option String
  name : Option String
  source_file : String
deriving DecidableEq

/-- The body of `load_config`'s per-line loop (source lines 103-115):
strip the line; skip empty lines and `#` comments; split on commas,
stripping each field; skip lines whose first (url) field is blank;
`branch`/`name` come from fields 2 and 3 when present and non-empty.
`none` means the line contributes no entry.  Indexing fields 2 and 3 with
a default of `""` is equivalent to the source's
`parts[i] if len(parts) > i and parts[i] else None` because both the
missing and the empty field yield `None`. -/
def parseConfigLine (label : String) (line : String) : Option RepoEntry :=
  let l := pyStrip line
  if pyTruthyStr l ∧ ¬ startsWithStr "#" l then
    let parts := (pySplit ',' l).map pyStrip
    let url := parts.headD ""
    if url = "" then none
    else
      let p1 := parts.getD 1 ""
      let p2 := parts.getD 2 ""
      some { url := url
             branch := if p1 ≠ "" then some p1 else none
             name := if p2 ≠ "" then some p2 else none
             source_file := label }
  else none

/-- Modelled from the spec: the catalog serialiser for the round-trip
property of §8 ("parsing then re-serializing (url, branch, name)
round-trips exactly").  The source has no serialiser; this renders the
three fields back into the `url[,branch[,name]]` line format, writing an
absent `branch` as an empty field when a `name` follows and omitting
trailing absent fields. -/
def serializeRepoEntry (e : RepoEntry) : String :=
  match e.branch, e.name with
  | none, none => e.url
  | some b, none => e.url ++ "," ++ b
  | none, some n => e.url ++ ",," ++ n
  | some b, some n => e.url ++ "," ++ b ++ "," ++ n

/-! ### JSON values and Python dynamic-typing primitives

`json.load` results are modelled by `JVal`.  Operations that Python
performs on dynamically-typed JSON data (`in`, subscripting, `.get`,
iteration, `str()`) are modelled exactly, returning `none` where the
Python operation raises. -/

inductive JVal where
  | jnull
  | jbool (b : Bool)
  | jnum (n : Int)
  | jstr (s : String)
  | jlist (l : List JVal)
  | jdict (entries : List (String × JVal))

open JVal

/-- Python truthiness of a JSON value. -/
def pyTruthy : JVal → Bool
  | jnull => false
  | jbool b => b
  | jnum n => n ≠ 0
  | jstr s => s ≠ ""
  | jlist l => ¬ l.isEmpty
  | jdict d => ¬ d.isEmpty

/-- Python truthiness of an optional JSON value (`None` is falsy). -/
def pyTruthyOpt : Option JVal → Bool
  | none => false
  | some v => pyTruthy v

mutual

/-- Python `==` on JSON values (including `True == 1`). -/
def jvalBeq : JVal → JVal → Bool
  | jnull, jnull => true
  | jbool a, jbool b => a = b
  | jbool a, jnum n => (if a then (1 : Int) else 0) = n
  | jnum n, jbool a => n = (if a then (1 : Int) else 0)
  | jnum a, jnum b => a = b
  | jstr a, jstr b => a = b
  | jlist a, jlist b => jlistBeq a b
  | jdict a, jdict b => jdictBeq a b
  | _, _ => false

def jlistBeq : List JVal → List JVal → Bool
  | [], [] => true
  | x :: xs, y :: ys => jvalBeq x y && jlistBeq xs ys
  | _, _ => false

def jdictBeq : List (String × JVal) → List (String × JVal) → Bool
  | [], [] => true
  | (k, x) :: xs, (k2, y) :: ys => k = k2 && jvalBeq x y && jdictBeq xs ys
  | _, _ => false

end

/-- Python substring containment `p in l`, on char lists. -/
def containsSub (p : List Char) : List Char → Bool
  | [] => p.isEmpty
  | c :: xs => p.isPrefixOf (c :: xs) || containsSub p xs

/-- Python `key in container` for a string key; `none` models the
`TypeError` raised by `in` on a scalar. -/
def pyContainsStr (k : String) : JVal → Option Bool
  | jdict es => some (es.any (fun e => e.1 = k))
  | jlist l => some (l.any (fun v => match v with | jstr s => s = k | _ => false))
  | jstr s => some (containsSub k.data s.data)
  | _ => none

/-- Python `x in container` for an arbitrary value: list membership
compares with `==`; dict membership first hashes the key, so an
unhashable key (a list or dict) raises `TypeError` (`none`) while a
hashable non-string key simply never equals the string keys; a string
container requires a string member; scalar containers raise. -/
def pyContainsV (x : JVal) : JVal → Option Bool
  | jdict es =>
    match x with
    | jlist _ => none
    | jdict _ => none
    | _ => some (es.any (fun e => jvalBeq x (jstr e.1)))
  | jlist l => some (l.any (fun v => jvalBeq x v))
  | jstr s => match x with
    | jstr t => some (containsSub t.data s.data)
    | _ => none
  | _ => none

/-- Python `container[k]` for a string key (`KeyError` and `TypeError`
are `none`). -/
def pyGetItemStr (v : JVal) (k : String) : Option JVal :=
  match v with
  | jdict es => (es.find? (fun e => e.1 = k)).map (fun e => e.2)
  | _ => none

/-- Python `container[key]` for an arbitrary key: dict lookup by string
key, list/str indexing by integer (with negative-index semantics);
everything else raises. -/
def pyGetItemV (container key : JVal) : Option JVal :=
  match container, key with
  | jdict es, jstr k => (es.find? (fun e => e.1 = k)).map (fun e => e.2)
  | jlist l, jnum n =>
    if 0 ≤ n then l.get? n.toNat
    else if (-n).toNat ≤ l.length then l.get? (l.length - (-n).toNat) else none
  | jstr s, jnum n =>
    if 0 ≤ n then (s.data.get? n.toNat).map (fun c => jstr (String.mk [c]))
    else if (-n).toNat ≤ s.data.length then
      (s.data.get? (s.data.length - (-n).toNat)).map (fun c => jstr (String.mk [c]))
    else none
  | _, _ => none

/-- Python `d.get(k, dflt)`; `none` models the `AttributeError` on a
non-dict. -/
def pyDictGet (v : JVal) (k : String) (dflt : JVal) : Option JVal :=
  match v with
  | jdict es => some (((es.find? (fun e => e.1 = k)).map (fun e => e.2)).getD dflt)
  | _ => none

/-- Python iteration `for x in v`: lists yield elements, strings yield
one-character strings, dicts yield their keys; scalars raise. -/
def pyIter : JVal → Option (List JVal)
  | jlist l => some l
  | jstr s => some (s.data.map (fun c => jstr (String.mk [c])))
  | jdict es => some (es.map (fun e => jstr e.1))
  | _ => none

/-- The value when it is a string; `none` models the exception raised by
a string method applied to a non-string. -/
def asString : JVal → Option String
  | jstr s => some s
  | _ => none

mutual

/-- Python `repr` of a JSON value (used through `str()` on containers). -/
def pyRepr : JVal → String
  | jnull => "None"
  | jbool true => "True"
  | jbool false => "False"
  | jnum n => toString n
  | jstr s => "\x27" ++ s ++ "\x27"
  | jlist l => "[" ++ ", ".intercalate (pyReprList l) ++ "]"
  | jdict es => "\x7b" ++ ", ".intercalate (pyReprDict es) ++ "\x7d"

def pyReprList : List JVal → List String
  | [] => []
  | x :: xs => pyRepr x :: pyReprList xs

def pyReprDict : List (String × JVal) → List String
  | [] => []
  | (k, v) :: xs => ("\x27" ++ k ++ "\x27: " ++ pyRepr v) :: pyReprDict xs

end

/-- Python `str()` of a JSON value. -/
def pyStr : JVal → String
  | jstr s => s
  | v => pyRepr v

/-! ### Filesystem model and the Manifest Reader `load_gitpm_json`
(src/gitpm.py lines 395-415) -/

/-- What reading and JSON-parsing a file would yield: a parsed value, a
`json.JSONDecodeError`, or some other read exception. -/
inductive FileData where
  | json (v : JVal)
  | invalid
  | unreadable

/-- A filesystem node: whether `is_file()` holds, its permission bits and
its (parse-level) content. -/
structure FileNode where
  isFile : Bool
  mode : Nat
  data : FileData

/-- The file map, keyed by full path strings. -/
def Files := List (String × FileNode)

def lookupFile (p : String) (fs : Files) : Option FileNode :=
  (List.find? (fun e => e.1 = p) fs).map (fun e => e.2)

/-- Outcome of `json.load` on an existing candidate file (source lines
405-413); the exception detail text appended by the source after the
file name is elided. -/
def readJsonOutcome (markerFile : String) (n : FileNode) : Option JVal × Option String :=
  match n.data with
  | .json v => (some v, none)
  | .invalid => (none, some ("Invalid JSON in " ++ markerFile))
  | .unreadable => (none, some ("Error reading " ++ markerFile))

/-- The marker-file loop of `load_gitpm_json` (source lines 402-415). -/
def loadMarkerLoop (repoPath : String) (fs : Files) : List String → Option JVal × Option String
  | [] => (none, none)
  | m :: rest =>
    match lookupFile (repoPath ++ "/" ++ m) fs with
    | some n => if n.isFile then readJsonOutcome m n else loadMarkerLoop repoPath fs rest
    | none => loadMarkerLoop repoPath fs rest

/-- Embedding of `load_gitpm_json` (source lines 395-415): probe
`gitpm.json` then `.gitpm.json`, returning the parse of the first
existing file. -/
def load_gitpm_json (repoPath : String) (fs : Files) : Option JVal × Option String :=
  loadMarkerLoop repoPath fs ["gitpm.json", ".gitpm.json"]

/-! ### Dependency Resolver: system packages
(src/gitpm.py lines 417-581)

`check_system_package` performs a chain of subprocess probes (`cmd -v`,
stderr sniffing, `which`); its outcome for each command name is abstracted
into the environment field `sysPkg`.  The `sudo -n true` probe and
`os.geteuid()` are likewise environment fields. -/

structure SysEnv where
  sysPkg : String → Bool
  hasSudo : Bool
  euidZero : Bool

/-- Embedding of `check_system_package` (source lines 417-455): the
subprocess probe chain, abstracted to its outcome.  The function ends in
`except Exception: return False` (lines 454-455), so it never raises: a
non-string argument makes `subprocess.run([package, '-v'])` raise
`TypeError`, which that handler converts to `False`. -/
def check_system_package (env : SysEnv) : JVal → Bool
  | JVal.jstr s => env.sysPkg s
  | _ => false

/-- Embedding of `check_package_alternatives` (source lines 457-464):
the first alternative that probes as installed wins, returned as the raw
element.  Total, because `check_system_package` swallows every
exception; a non-string element simply probes as not installed and the
scan continues. -/
def check_package_alternatives (env : SysEnv) : List JVal → Bool × Option JVal
  | [] => (false, none)
  | v :: rest =>
    if check_system_package env v then (true, some v)
    else check_package_alternatives env rest

def isJList : JVal → Bool
  | JVal.jlist _ => true
  | _ => false

def isJDict : JVal → Bool
  | JVal.jdict _ => true
  | _ => false

/-- Mapping an unsatisfied probe's package entry to the element appended
to `missing` (source lines 497-503 and 513-519): a list contributes its
first element, a string itself, anything else its `str()`. -/
def pkgEntryToMissing : JVal → Option JVal
  | JVal.jlist pl => pl.head?
  | JVal.jstr s => some (JVal.jstr s)
  | other => some (JVal.jstr (pyStr other))

/-- The new-format loop of `check_system_dependencies` (source lines
487-522): `check_commands` is a list of commands or alternative groups,
`dp` the distro's command-to-package dict.  For a group none of whose
members is installed, `primary_command = command_entry[0]` raises on an
empty group; `primary_command in distro_packages` hashes the key, so an
unhashable primary (list/dict) raises `TypeError`, a hashable non-string
primary never matches the string keys and is appended to `missing` raw
(line 505), and a string primary is looked up in `dp`. -/
def sysLoopNew (env : SysEnv) (dp : List (String × JVal)) : List JVal → Option (List JVal)
  | [] => some []
  | JVal.jlist alts :: rest =>
    if (check_package_alternatives env alts).1 then sysLoopNew env dp rest
    else do
      let primary ← alts.head?
      let m ← (match primary with
        | JVal.jstr pc =>
          (match List.find? (fun e => e.1 = pc) dp with
           | some entry => pkgEntryToMissing entry.2
           | none => some (JVal.jstr pc))
        | JVal.jlist _ => none
        | JVal.jdict _ => none
        | other => some other)
      let tail ← sysLoopNew env dp rest
      pure (m :: tail)
  | JVal.jstr c :: rest =>
    if check_system_package env (JVal.jstr c) then sysLoopNew env dp rest
    else do
      let m ← (match List.find? (fun e => e.1 = c) dp with
        | some entry => pkgEntryToMissing entry.2
        | none => some (JVal.jstr c))
      let tail ← sysLoopNew env dp rest
      pure (m :: tail)
  | _ :: rest => sysLoopNew env dp rest

/-- The inner search of the legacy-dict loop (source lines 531-536): the
first `pkg_name` contained in `distro_packages` wins. -/
def legacyFindDistroPkg (distro_packages : JVal) : List JVal → Option (Option JVal)
  | [] => some none
  | pn :: rest => do
    let c ← pyContainsV pn distro_packages
    if c then do
      let v ← pyGetItemV distro_packages pn
      pure (some v)
    else legacyFindDistroPkg distro_packages rest

/-- The legacy-format loop of `check_system_dependencies` (source lines
523-547): `check_commands` is a dict from commands to package names. -/
def sysLoopLegacy (env : SysEnv) (distro_packages : JVal) :
    List (String × JVal) → Option (List JVal)
  | [] => some []
  | (command, package_names) :: rest =>
    if check_system_package env (JVal.jstr command) then sysLoopLegacy env distro_packages rest
    else do
      let m ← (match package_names with
        | JVal.jlist pl => do
          let dpOpt ← legacyFindDistroPkg distro_packages pl
          match dpOpt with
          | some v => if pyTruthy v then some v else pl.head?
          | none => pl.head?
        | pn => do
          let c ← pyContainsV pn distro_packages
          if c then pyGetItemV distro_packages pn else some pn)
      let tail ← sysLoopLegacy env distro_packages rest
      pure (m :: tail)

/-- Python `' or '.join(dep_entry)` wrapped in parentheses (source line
561); raises on a non-string element. -/
def joinOr (l : List JVal) : Option String := do
  let ss ← l.mapM asString
  pure ("(" ++ " or ".intercalate ss ++ ")")

/-- The old list-format loop (source lines 551-561). -/
def sysLoopOldList (env : SysEnv) : List JVal → Option (List JVal)
  | [] => some []
  | JVal.jstr s :: rest =>
    if check_system_package env (JVal.jstr s) then sysLoopOldList env rest
    else do
      let tail ← sysLoopOldList env rest
      pure (JVal.jstr s :: tail)
  | JVal.jlist alts :: rest =>
    if (check_package_alternatives env alts).1 then sysLoopOldList env rest
    else do
      let j ← joinOr alts
      let tail ← sysLoopOldList env rest
      pure (JVal.jstr j :: tail)
  | _ :: rest => sysLoopOldList env rest

/-- The old dict-format loop (source lines 562-567). -/
def sysLoopOldDict (env : SysEnv) : List (String × JVal) → Option (List JVal)
  | [] => some []
  | (_, JVal.jstr s) :: rest =>
    if check_system_package env (JVal.jstr s) then sysLoopOldDict env rest
    else do
      let tail ← sysLoopOldDict env rest
      pure (JVal.jstr s :: tail)
  | _ :: rest => sysLoopOldDict env rest

/-- The fallthrough branch of `check_system_dependencies` (source lines
548-567), reached when neither `check_commands` branch applies. -/
def sysBranch3 (env : SysEnv) (distro : String) (dependencies : JVal) :
    Option (List JVal) := do
  let hasDistro ← pyContainsStr distro dependencies
  if hasDistro then do
    let dd ← pyGetItemStr dependencies distro
    match dd with
    | JVal.jlist dl => sysLoopOldList env dl
    | JVal.jdict ddict => sysLoopOldDict env ddict
    | _ => pure []
  else pure []

/-- Embedding of `check_system_dependencies` (source lines 466-581).
Returns `(all_satisfied, missing, install_method)`.  The `missing` list is
heterogeneous in the source (non-string JSON values can be appended by the
legacy branches), hence `List JVal`.  The `sudo` probe of lines 570-579
assigns a local variable that the function never uses and is omitted. -/
def check_system_dependencies (env : SysEnv) (distro : String) (dependencies : JVal) :
    Option (Bool × List JVal × JVal) := do
  let hasMethod ← pyContainsStr "method" dependencies
  let install_method ←
    if hasMethod then pyGetItemStr dependencies "method"
    else do
      let hasDM ← pyContainsStr (distro ++ "_method") dependencies
      if hasDM then pyGetItemStr dependencies (distro ++ "_method")
      else pure (JVal.jstr "")
  let check_commands ← pyDictGet dependencies "check_commands" (JVal.jlist [])
  let distro_packages ← pyDictGet dependencies distro (JVal.jdict [])
  let missing ←
    match check_commands, distro_packages with
    | JVal.jlist cc, JVal.jdict dp =>
      if cc.isEmpty then sysBranch3 env distro dependencies
      else sysLoopNew env dp cc
    | JVal.jdict cd, _ =>
      if cd.isEmpty then sysBranch3 env distro dependencies
      else sysLoopLegacy env distro_packages cd
    | _, _ => sysBranch3 env distro dependencies
  pure (missing.isEmpty, missing, install_method)

/-! ### Dependency Resolver: peer (gitpm) packages
(src/gitpm.py lines 583-675) -/

/-- One record of the installed registry (the dict stored under each
installed name, source lines 1297-1308). -/
structure InstalledRec where
  url : String
  user : String
  name : String
  repo_name : String
  branch : Option String
  path : String
  setup_script : Option String
  remove_script : Option String
  update_script : Option String
  check_script : Option String
deriving DecidableEq

/-- The installed registry: name-keyed records. -/
def Registry := List (String × InstalledRec)

def lookupReg (n : String) (r : Registry) : Option InstalledRec :=
  (List.find? (fun e => e.1 = n) r).map (fun e => e.2)

/-- The fields of a dependency descriptor string in `url[,branch[,name]]`
format, each comma-field stripped (source line 598 and twins). -/
def depParts (dep : String) : List String :=
  (pySplit ',' dep).map pyStrip

/-- The resolved name of a dependency descriptor (source lines 599-604):
the declared name field when present and non-empty, else the repo name
from `parse_repo_url`. -/
def depNameOf (dep : String) : String :=
  let parts := depParts dep
  if parts.length > 2 ∧ parts.getD 2 "" ≠ "" then parts.getD 2 ""
  else (parse_repo_url (parts.headD "")).2.2

/-- The url field of a dependency descriptor (source lines 624, 629). -/
def depUrlOf (dep : String) : String :=
  (depParts dep).headD ""

/-- The branch field of a dependency descriptor (source lines 625, 630):
present-and-non-empty or `None`; indexing with a default of `""` is
equivalent as for `parseConfigLine`. -/
def depBranchOf (dep : String) : Option String :=
  if (depParts dep).getD 1 "" ≠ "" then some ((depParts dep).getD 1 "") else none

/-- One entry of the missing-dependency information list (source lines
633-638 and 657-661); an empty `alternatives` list models the absence of
the `'alternatives'` key, which the consumer tests only for truthiness
(source line 1151). -/
structure DepInfo where
  name : String
  url : String
  branch : Option String
  alternatives : List String
deriving DecidableEq

/-- The check of an installed dependency's own manifest for `system_only`
(source lines 610-614 and 667-673): only in user scope; a truthy manifest
that is not a dict makes `.get` raise. -/
def installedSysOnlyCheck (system : Bool) (fs : Files) (dep_name : String)
    (r : InstalledRec) : Option (List String) :=
  if ¬ system then
    match (load_gitpm_json r.path fs).1 with
    | some v =>
      if pyTruthy v then do
        let so ← pyDictGet v "system_only" (jbool false)
        pure (if pyTruthy so then [dep_name] else [])
      else pure []
    | none => pure []
  else pure []

/-- The alternative-scan of a group entry (source lines 596-615): stop at
the first alternative whose resolved name is installed; returns whether
one was found and the scope violations recorded for it. -/
def groupFindInstalled (system : Bool) (installed : Registry) (fs : Files) :
    List JVal → Option (Bool × List String)
  | [] => some (false, [])
  | v :: rest => do
    let dep ← asString v
    let dep_name := depNameOf dep
    match lookupReg dep_name installed with
    | some r => do
      let so ← installedSysOnlyCheck system fs dep_name r
      pure (true, so)
    | none => groupFindInstalled system installed fs rest

/-- The entry loop of `check_gitpm_dependencies` (source lines 592-673),
accumulating `(missing, dep_info, system_only_deps)`. -/
def gitpmDepsLoop (system : Bool) (installed : Registry) (fs : Files) :
    List JVal → Option (List String × List DepInfo × List String)
  | [] => some ([], [], [])
  | entry :: rest => do
    let head ← (match entry with
      | JVal.jlist alts => do
        let r ← groupFindInstalled system installed fs alts
        if r.1 then pure (([] : List String), ([] : List DepInfo), r.2)
        else do
          let primary ← alts.head?
          let pd ← asString primary
          let altStrs ← alts.mapM asString
          pure ([depNameOf pd],
            [{ name := depNameOf pd, url := depUrlOf pd, branch := depBranchOf pd,
               alternatives := altStrs }], ([] : List String))
      | JVal.jstr dep => do
        let dep_name := depNameOf dep
        match lookupReg dep_name installed with
        | none =>
          pure ([dep_name],
            [{ name := dep_name, url := depUrlOf dep, branch := depBranchOf dep,
               alternatives := [] }], ([] : List String))
        | some r => do
          let so ← installedSysOnlyCheck system fs dep_name r
          pure (([] : List String), ([] : List DepInfo), so)
      | _ => pure (([] : List String), ([] : List DepInfo), ([] : List String)))
    let tail ← gitpmDepsLoop system installed fs rest
    pure (head.1 ++ tail.1, head.2.1 ++ tail.2.1, head.2.2 ++ tail.2.2)

/-- Embedding of `check_gitpm_dependencies` (source lines 583-675).
Returns `(all_satisfied, missing, dependency_info, system_only_deps)`.
Iteration over a non-list `gitpm_deps` value follows Python iteration
semantics via `pyIter`. -/
def check_gitpm_dependencies (system : Bool) (installed : Registry) (fs : Files)
    (gitpm_deps : JVal) : Option (Bool × List String × List DepInfo × List String) := do
  let entries ← pyIter gitpm_deps
  let r ← gitpmDepsLoop system installed fs entries
  pure (r.1.isEmpty, r.1, r.2.1, r.2.2)

/-! ### Dependency Resolver: `check_dependencies`
(src/gitpm.py lines 677-744) -/

/-- The system-dependency step of `check_dependencies` (source lines
701-708): run only when the `dependencies` document has a `system` key;
yields the missing system packages. -/
def checkDepsSystemPart (env : SysEnv) (distro : String) (deps : JVal)
    (hasSys : Bool) : Option (List JVal) :=
  if hasSys then do
    let sysv ← pyGetItemStr deps "system"
    let r ← check_system_dependencies env distro sysv
    pure r.2.1
  else pure []

/-- The peer-dependency step of `check_dependencies` (source lines
723-731): run only when the `dependencies` document has a `gitpm` key;
yields `(missing_gitpm, gitpm_dep_info, system_only_deps)`. -/
def checkDepsGitpmPart (system : Bool) (installed : Registry) (fs : Files)
    (deps : JVal) (hasGit : Bool) :
    Option (List String × List DepInfo × List String) :=
  if hasGit then do
    let gv ← pyGetItemStr deps "gitpm"
    let r ← check_gitpm_dependencies system installed fs gv
    pure (r.2.1, r.2.2.1, r.2.2.2)
  else pure ([], [], [])

/-- Embedding of `check_dependencies` (source lines 677-744).  Returns
`(all_satisfied, missing_system, missing_gitpm, can_install_system,
gitpm_dep_info, json_error)`; the two scope fatals are delivered through
the `json_error` component exactly as in the source.  The local
`install_method` of the source is computed but unused by the return. -/
def check_dependencies (system : Bool) (distro : String) (installed : Registry)
    (repoPath : String) (fs : Files) (env : SysEnv) :
    Option (Bool × List JVal × List String × Bool × List DepInfo × Option String) :=
  let lj := load_gitpm_json repoPath fs
  match lj.2 with
  | some e => some (false, [], [], false, [], some e)
  | none =>
    if ¬ pyTruthyOpt lj.1 then some (true, [], [], false, [], none)
    else do
      let v ← lj.1
      let hasDeps ← pyContainsStr "dependencies" v
      if ¬ hasDeps then pure (true, [], [], false, [], none)
      else do
        let deps ← pyGetItemStr v "dependencies"
        let hasSys ← pyContainsStr "system" deps
        let msys ← checkDepsSystemPart env distro deps hasSys
        let can_install_system :=
          if ¬ msys.isEmpty ∧ system then true
          else if ¬ msys.isEmpty ∧ ¬ system then env.hasSudo ∨ env.euidZero
          else false
        let hasGit ← pyContainsStr "gitpm" deps
        let gr ← checkDepsGitpmPart system installed fs deps hasGit
        let so ← pyDictGet v "system_only" (jbool false)
        if pyTruthy so ∧ ¬ system then
          pure (false, [], [], false, [],
            some "This package requires system-wide installation (use --system flag)")
        else if ¬ gr.2.2.isEmpty ∧ ¬ system then
          pure (false, [], [], false, [],
            some ("Installed dependencies require system install: "
              ++ ", ".intercalate gr.2.2
              ++ ". This package must be installed with --system flag."))
        else
          pure (msys.isEmpty ∧ gr.1.isEmpty, msys, gr.1, can_install_system, gr.2.1, none)

/-! ### Remote Verifier: `verify_repo` (src/gitpm.py lines 775-841)

The `git ls-remote --heads --tags` subprocess outcome is the input: its
return code, stdout and stderr.  The `TimeoutExpired` / `FileNotFoundError`
/ generic-exception arms (source lines 836-841) concern the subprocess
launch itself and are outside this model. -/

structure LsRemote where
  rc : Int
  stdout : String
  stderr : String

/-- Python `s.lower()` (ASCII case folding suffices for the probed
message fragments). -/
def pyLower (s : String) : String :=
  String.mk (s.data.map Char.toLower)

/-- Whether one ls-remote output line is collected for `target` (source
lines 806-815 and 820-827): non-blank, at least two tab-separated fields,
exact ref match in field 2. -/
def lineMatchesRef (target : String) (l : String) : Bool :=
  pyTruthyStr (pyStrip l) &&
    (match pySplit '\t' l with
     | _ :: r :: _ => r == target
     | _ => false)

/-- Embedding of `verify_repo` (source lines 775-841). -/
def verify_repo (ls : LsRemote) (branch : Option String) : Bool × String :=
  if ls.rc ≠ 0 then
    let error_msg := if pyTruthyStr ls.stderr then pyStrip ls.stderr else "Unknown error"
    let le := pyLower error_msg
    if containsSub "not found".data le.data ∨ containsSub "does not exist".data le.data then
      (false, "Repository not found or not accessible: " ++ error_msg)
    else if containsSub "permission denied".data le.data
        ∨ containsSub "authentication".data le.data then
      (false, "Permission denied or authentication required: " ++ error_msg)
    else (false, "Error accessing repository: " ++ error_msg)
  else
    match branch with
    | some b =>
      let lines := pySplit '\n' ls.stdout
      if (lines.filter (lineMatchesRef ("refs/heads/" ++ b))).isEmpty then
        if (lines.filter (lineMatchesRef ("refs/tags/" ++ b))).isEmpty then
          (false, "Branch \x27" ++ b ++ "\x27 not found in repository")
        else
          (false, "\x27" ++ b ++ "\x27 exists as a tag, not a branch. Please use a branch name.")
      else (true, "")
    | none => (true, "")

/-! ### Hook Discovery and execution: `check_scripts`, `run_script`
(src/gitpm.py lines 214-318)

Subprocess execution and `os.chmod`/`os.access` are abstracted into an
execution environment: `chmodRaises` says which chmod calls fail (the
source swallows those), `runScriptExit` gives each script run's exit code
(the exception arm that yields 255 is one possible outcome of that field),
and the git-command fields below serve the `update` embedding. -/

structure ExecEnv where
  chmodRaises : String → Bool
  runScriptExit : String → Int
  fetchOk : Bool
  revParse : String → String
  checkoutOk : Bool
  resetOk : Bool
  cleanOk : Bool
  pullOk : Bool
  hasLocalChanges : Bool
  contentCheckout : Nat
  contentReset : Nat
  contentClean : Nat
  contentPull : Nat
  rmtreeRaises : Bool

/-- Python `pathlib.PurePath.suffix`: the final dot-suffix of the last
path component, empty when the dot is leading, trailing or absent. -/
def pySuffix (p : String) : String :=
  let nm := afterLastSlash p.data
  if ('.' : Char) ∈ nm then
    let tailRev := nm.reverse.takeWhile (fun c => c ≠ '.')
    let i := nm.length - 1 - tailRev.length
    if 0 < i ∧ i < nm.length - 1 then String.mk ('.' :: tailRev.reverse) else ""
  else ""

/-- Set a file's permission bits (the effect of `os.chmod(p, 0o755)`). -/
def setMode (p : String) (m : Nat) (fs : Files) : Files :=
  fs.map (fun e => if e.1 = p then (e.1, { e.2 with mode := m }) else e)

/-- The discovered hook paths (source lines 218-224); `uninstall` is a key
of the dict that no probe list ever fills. -/
structure Scripts where
  setup : Option String
  remove : Option String
  uninstall : Option String
  update : Option String
  check : Option String
deriving DecidableEq

/-- The chmod side effect applied to a candidate before its
executability test (source lines 265-270): shell-style candidates
(suffix `.sh` or none) are chmod-755'd, chmod failures swallowed. -/
def probeChmod (n p : String) (env : ExecEnv) (fs : Files) : Files :=
  if (pySuffix n = ".sh" ∨ pySuffix n = "") ∧ ¬ env.chmodRaises p then setMode p 493 fs
  else fs

/-- The executability test `os.access(p, X_OK)` (source line 272),
modelled as any execute permission bit set. -/
def probeExecOK (p : String) (fs : Files) : Bool :=
  match lookupFile p fs with
  | some nd => nd.mode &&& 73 ≠ 0
  | none => false

/-- The candidate-name probe loop of `check_scripts` (source lines
261-274): first existing regular file wins; the chmod side effect is
applied to each shell-style candidate before its executability test. -/
def probeScript (repoPath : String) (env : ExecEnv) (fs : Files) :
    List String → Option String × Files
  | [] => (none, fs)
  | n :: rest =>
    match lookupFile (repoPath ++ "/" ++ n) fs with
    | some node =>
      if node.isFile then
        if pySuffix n = ".py" ∨ probeExecOK (repoPath ++ "/" ++ n)
            (probeChmod n (repoPath ++ "/" ++ n) env fs) = true then
          (some (repoPath ++ "/" ++ n), probeChmod n (repoPath ++ "/" ++ n) env fs)
        else probeScript repoPath env (probeChmod n (repoPath ++ "/" ++ n) env fs) rest
      else probeScript repoPath env fs rest
    | none => probeScript repoPath env fs rest

def setupNames (pfx : String) : List String :=
  ["setup-" ++ pfx ++ ".sh", "install-" ++ pfx ++ ".sh",
   "setup-" ++ pfx ++ ".py", "install-" ++ pfx ++ ".py",
   "setup.sh", "install.sh", "setup.py", "install.py"]

def removeNames (pfx : String) : List String :=
  ["remove-" ++ pfx ++ ".sh", "uninstall-" ++ pfx ++ ".sh",
   "remove-" ++ pfx ++ ".py", "uninstall-" ++ pfx ++ ".py",
   "remove.sh", "uninstall.sh", "remove.py", "uninstall.py"]

def updateNames (pfx : String) : List String :=
  ["update-" ++ pfx ++ ".sh", "upgrade-" ++ pfx ++ ".sh",
   "update-" ++ pfx ++ ".py", "upgrade-" ++ pfx ++ ".py",
   "update.sh", "upgrade.sh", "update.py", "upgrade.py"]

def checkNames (pfx : String) : List String :=
  ["check-" ++ pfx ++ ".sh", "check-updates-" ++ pfx ++ ".sh",
   "check-" ++ pfx ++ ".py", "check-updates-" ++ pfx ++ ".py",
   "check.sh", "check-updates.sh", "check.py", "check-updates.py"]

/-- Embedding of `check_scripts` (source lines 214-276): the four probe
lists in dict order, threading the chmod side effects. -/
def check_scripts (system : Bool) (repoPath : String) (env : ExecEnv) (fs : Files) :
    Scripts × Files :=
  let pfx := if system then "system" else "user"
  let r1 := probeScript repoPath env fs (setupNames pfx)
  let r2 := probeScript repoPath env r1.2 (removeNames pfx)
  let r3 := probeScript repoPath env r2.2 (updateNames pfx)
  let r4 := probeScript repoPath env r3.2 (checkNames pfx)
  ({ setup := r1.1, remove := r2.1, uninstall := none, update := r3.1, check := r4.1 }, r4.2)

/-- Embedding of `run_script` (source lines 278-318): chmod shell-style
scripts, run, return the exit code (callers test `= 0` when they want the
boolean form); output echoing is not modelled. -/
def run_script (env : ExecEnv) (scriptPath : String) (fs : Files) : Int × Files :=
  let fs1 := if (pySuffix scriptPath = ".sh" ∨ pySuffix scriptPath = "") ∧ ¬ env.chmodRaises scriptPath
             then setMode scriptPath 493 fs else fs
  (env.runScriptExit scriptPath, fs1)

/-! ### Lifecycle state: registry, directories, working trees -/

/-- The manager state visible to `update` and `remove`: the in-memory
registry, the persisted registry file, the set of existing install
directories, the file map and an abstract git-managed content value per
directory (changed only by checkout/reset/clean/pull). -/
structure PMState where
  installed : Registry
  savedReg : Registry
  dirs : List String
  files : Files
  contents : List (String × Nat)

inductive GitCmd where
  | fetch
  | revParse (ref : String)
  | checkout (branch : String)
  | status
  | resetHard (ref : String)
  | cleanFd
  | pull
deriving DecidableEq

/-- Whether a git command can change the working tree. -/
def gitMutatesTree : GitCmd → Bool
  | GitCmd.checkout _ => true
  | GitCmd.resetHard _ => true
  | GitCmd.cleanFd => true
  | GitCmd.pull => true
  | _ => false

def setContent (d : String) (v : Nat) (cs : List (String × Nat)) : List (String × Nat) :=
  cs.map (fun e => if e.1 = d then (e.1, v) else e)

def updateRecField (reg : Registry) (name : String) (f : InstalledRec → InstalledRec) :
    Registry :=
  reg.map (fun e => if e.1 = name then (e.1, f e.2) else e)

/-! ### Lifecycle Orchestrator: `update`
(src/gitpm.py lines 1315-1476) -/

/-- The hook-and-registry tail of a non-check-only update (source lines
1440-1460): run the update hook, else re-run setup (both best-effort),
refresh stored hook paths and persist when any was rediscovered. -/
def updateHooks (system : Bool) (name : String) (repo_path : String)
    (st : PMState) (env : ExecEnv) (tr : List GitCmd) : Bool × PMState × List GitCmd :=
  let scFs := check_scripts system repo_path env st.files
  let scripts := scFs.1
  let st1 := { st with files := scFs.2 }
  let st2 := match scripts.update with
    | some us => { st1 with files := (run_script env us st1.files).2 }
    | none => match scripts.setup with
      | some ss => { st1 with files := (run_script env ss st1.files).2 }
      | none => st1
  let reg1 := match scripts.update with
    | some us => updateRecField st2.installed name (fun r => { r with update_script := some us })
    | none => st2.installed
  let reg2 := match scripts.check with
    | some cs => updateRecField reg1 name (fun r => { r with check_script := some cs })
    | none => reg1
  let st3 := { st2 with installed := reg2 }
  let st4 := if scripts.update.isSome ∨ scripts.check.isSome
             then { st3 with savedReg := st3.installed } else st3
  (true, st4, tr)

/-- The synchronisation step of `update` (source lines 1404-1438): detect
local modifications, then reset-and-clean or pull; a failing checked git
call is caught by the `except` arm and returns failure. -/
def updateSync (system : Bool) (name : String) (repo_path : String)
    (branch : Option String) (st : PMState) (env : ExecEnv) (tr : List GitCmd) :
    Bool × PMState × List GitCmd :=
  let tr1 := tr ++ [GitCmd.status]
  if env.hasLocalChanges then
    let remote_ref := match branch with | some b => "origin/" ++ b | none => "origin/HEAD"
    let tr2 := tr1 ++ [GitCmd.resetHard remote_ref]
    if ¬ env.resetOk then (false, st, tr2)
    else
      let st1 := { st with contents := setContent repo_path env.contentReset st.contents }
      let tr3 := tr2 ++ [GitCmd.cleanFd]
      if ¬ env.cleanOk then (false, st1, tr3)
      else
        let st2 := { st1 with contents := setContent repo_path env.contentClean st1.contents }
        updateHooks system name repo_path st2 env tr3
  else
    let tr2 := tr1 ++ [GitCmd.pull]
    if ¬ env.pullOk then (false, st, tr2)
    else
      let st1 := { st with contents := setContent repo_path env.contentPull st.contents }
      updateHooks system name repo_path st1 env tr2

/-- Embedding of the single-package branch of `update` (source lines
1319-1463), returning `(result, state, git-command trace)`. -/
def updateOne (system : Bool) (name : String) (check_only : Bool)
    (st : PMState) (env : ExecEnv) : Bool × PMState × List GitCmd :=
  match lookupReg name st.installed with
  | none => (false, st, [])
  | some info =>
    let repo_path := info.path
    if repo_path ∉ st.dirs then (false, st, [])
    else
      let branch := info.branch
      if ¬ env.fetchOk then (false, st, [GitCmd.fetch])
      else
        let current_commit := env.revParse "HEAD"
        let remote_ref := match branch with | some b => "origin/" ++ b | none => "origin/HEAD"
        let remote_commit := env.revParse remote_ref
        let tr1 := [GitCmd.fetch, GitCmd.revParse "HEAD", GitCmd.revParse remote_ref]
        let scFs := check_scripts system repo_path env st.files
        let scripts := scFs.1
        let stA := { st with files := scFs.2 }
        let afterCheck : Bool × PMState :=
          match scripts.check with
          | some cs =>
            let r := run_script env cs stA.files
            let stB := { stA with files := r.2 }
            (if r.1 = 1 then true
             else if r.1 = 0 then false
             else current_commit ≠ remote_commit, stB)
          | none => (current_commit ≠ remote_commit, stA)
        let updates_available := afterCheck.1
        let st2 := afterCheck.2
        if ¬ updates_available then (true, st2, tr1)
        else if check_only then (true, st2, tr1)
        else
          match branch with
          | some b =>
            let tr2 := tr1 ++ [GitCmd.checkout b]
            if ¬ env.checkoutOk then (false, st2, tr2)
            else
              let st3 := { st2 with
                contents := setContent repo_path env.contentCheckout st2.contents }
              updateSync system name repo_path branch st3 env tr2
          | none => updateSync system name repo_path branch st2 env tr1

/-- The update-all loop (source lines 1464-1476): each name is updated
with `check_only` left at its default `False`. -/
def updateAllLoop (system : Bool) (st : PMState) (env : ExecEnv) :
    List String → Bool × PMState × List GitCmd
  | [] => (true, st, [])
  | n :: rest =>
    let r := updateOne system n false st env
    let rr := updateAllLoop system r.2.1 env rest
    (rr.1 ∧ r.1, rr.2.1, r.2.2 ++ rr.2.2)

/-- Embedding of `update` (source lines 1315-1476). -/
def update (system : Bool) (name : Option String) (check_only : Bool)
    (st : PMState) (env : ExecEnv) : Bool × PMState × List GitCmd :=
  match name with
  | some n => updateOne system n check_only st env
  | none =>
    if st.installed.isEmpty then (true, st, [])
    else updateAllLoop system st env (st.installed.map (fun e => e.1))

/-! ### Lifecycle Orchestrator: `remove`
(src/gitpm.py lines 1478-1523) -/

inductive RemEvent where
  | hookRun (p : String)
  | rmtree (d : String)
deriving DecidableEq

/-- Delete a directory tree: the directory, its files and its content
entry disappear. -/
def removeDir (d : String) (st : PMState) : PMState :=
  { st with dirs := st.dirs.erase d,
            files := st.files.filter (fun e => ¬ startsWithStr (d ++ "/") e.1),
            contents := st.contents.filter (fun e => e.1 ≠ d) }

def eraseReg (n : String) (r : Registry) : Registry :=
  r.filter (fun e => e.1 ≠ n)

/-- Embedding of `remove` (source lines 1478-1523), returning
`(result, state, hook/rmtree event trace)`. -/
def remove (system : Bool) (name : String) (skip_uninstall : Bool)
    (st : PMState) (env : ExecEnv) : Bool × PMState × List RemEvent :=
  match lookupReg name st.installed with
  | none => (false, st, [])
  | some info =>
    let repo_path := info.path
    if repo_path ∉ st.dirs then
      let reg := eraseReg name st.installed
      (true, { st with installed := reg, savedReg := reg }, [])
    else
      let hookStep : PMState × List RemEvent :=
        if ¬ skip_uninstall then
          let scFs := check_scripts system repo_path env st.files
          let scripts := scFs.1
          let st1 := { st with files := scFs.2 }
          match scripts.remove.orElse (fun _ => scripts.uninstall) with
          | some rs =>
            ({ st1 with files := (run_script env rs st1.files).2 }, [RemEvent.hookRun rs])
          | none =>
            match info.remove_script with
            | some rs =>
              if (lookupFile rs st1.files).isSome then
                ({ st1 with files := (run_script env rs st1.files).2 }, [RemEvent.hookRun rs])
              else (st1, [])
            | none => (st1, [])
        else (st, [])
      let st1 := hookStep.1
      let tr := hookStep.2 ++ [RemEvent.rmtree repo_path]
      if env.rmtreeRaises then (false, st1, tr)
      else
        let st2 := removeDir repo_path st1
        let reg := eraseReg name st2.installed
        (true, { st2 with installed := reg, savedReg := reg }, tr)

/-! ### Lifecycle Orchestrator: `install` after a successful clone
(src/gitpm.py lines 1102-1313)

The post-clone phase of `install` interacts with the outside world through
`check_dependencies` (whose filesystem evolves when dependencies are
installed), interactive prompts, throwaway probe clones and recursive
`install` calls.  Those interactions are abstracted into `InstallEnv`:
`deps1`/`deps2`/`deps3` are the results of the three `check_dependencies`
call sites (lines 1106, 1142, 1255), `depOut k` the prompt/probe/recursion
outcomes for the `k`-th missing peer dependency, `rmtreeOk` whether
removing the clone directory succeeds.  The embedding tracks whether the
cleanup block was reached and whether the clone directory still exists.
Python exceptions escaping `install` (for example a probe-clone timeout)
abort the process without returning and are outside this model. -/

/-- Oracle-level result of one `check_dependencies` call. -/
structure CheckDepsRes where
  satisfied : Bool
  missingSystem : List String
  missingGitpm : List String
  canInstall : Bool
  depInfo : List DepInfo
  jsonError : Option String

/-- Outcomes of the external interactions for one missing peer
dependency: the prompt selection index, the probe-clone compatibility
result, the probed manifest (a JSON object) and the recursive install
result. -/
structure DepOutcome where
  choice : Option Nat
  compatOk : Bool
  depJson : Option (List (String × JVal))
  installOk : Bool

structure InstallEnv where
  deps1 : CheckDepsRes
  sysBlockTupleCond : Bool
  methodTruthy : Bool
  sysInstallOk : Bool
  deps2 : CheckDepsRes
  depOut : Nat → DepOutcome
  deps3 : CheckDepsRes
  rmtreeOk : Bool

/-- Filesystem-relevant effects of the post-clone phase. -/
structure InstallEff where
  cleanupAttempted : Bool
  dirExists : Bool
  registered : Bool
deriving DecidableEq

/-- The clone-cleanup block repeated on every fatal path (source lines
1111-1118, 1182-1188, 1224-1227, 1245-1252, 1263-1270, 1275-1281):
attempt `shutil.rmtree` on the clone; a cleanup failure leaves the
directory behind but the fatal outcome stands. -/
def cleanupClone (env : InstallEnv) : InstallEff :=
  { cleanupAttempted := true, dirExists := ¬ env.rmtreeOk, registered := false }

/-- The successful tail of `install` (source lines 1284-1313): setup hook
best-effort, then registration and persist. -/
def installFinishEff : InstallEff :=
  { cleanupAttempted := false, dirExists := true, registered := true }

/-- A candidate built from one alternative descriptor for the dependency
prompt (source lines 1155-1173). -/
structure SelOption where
  name : String
  user : String
  url : String
  branch : Option String
deriving DecidableEq

def altToOption (alt : String) : SelOption :=
  let parts := depParts alt
  let pr := parse_repo_url (parts.headD "")
  let alt_url := if pyTruthyStr pr.1 then pr.1 else parts.headD ""
  if parts.length > 2 ∧ parts.getD 2 "" ≠ "" then
    { name := parts.getD 2 "", user := pr.2.1, url := alt_url,
      branch := if parts.getD 1 "" ≠ "" then some (parts.getD 1 "") else none }
  else
    { name := pr.2.2, user := pr.2.1, url := alt_url,
      branch := if parts.getD 1 "" ≠ "" then some (parts.getD 1 "") else none }

/-- Embedding of `prompt_selection` (source lines 187-212): no options
yields `None`, a single option is returned without prompting, otherwise
the prompt's outcome decides (`none` models cancellation/interrupt). -/
def promptSelection (options : List SelOption) (choice : Option Nat) : Option SelOption :=
  if options.length = 0 then none
  else if options.length = 1 then options.head?
  else choice.bind (fun i => options.get? i)

/-- The missing-peer-dependency loop of `install` (source lines
1149-1253): returns `false` when some dependency aborts the install (the
caller then performs the clone cleanup, which every abort in the source
performs identically). -/
def processDeps (system : Bool) (env : InstallEnv) (k : Nat) :
    List DepInfo → Bool
  | [] => true
  | dep :: rest =>
    let oc := env.depOut k
    let sel : Option (String × String × Option String) :=
      if ¬ dep.alternatives.isEmpty then
        match promptSelection (dep.alternatives.map altToOption) oc.choice with
        | some s => some (s.name, s.url, s.branch)
        | none => none
      else some (dep.name, dep.url, dep.branch)
    match sel with
    | none => false
    | some _ =>
      let abortSys : Bool :=
        if oc.compatOk then
          match oc.depJson with
          | some es =>
            pyTruthy (JVal.jdict es)
              ∧ pyTruthy ((((es.find? (fun e2 => e2.1 = "system_only")).map
                  (fun e2 => e2.2)).getD (JVal.jbool false)))
              ∧ ¬ system
          | none => false
        else false
      if abortSys then false
      else if ¬ oc.installOk then false
      else processDeps system env (k + 1) rest

/-- The remaining-missing check after repairs (source lines 1257-1282):
`can_install_system` is still the value of the first `check_dependencies`
call, since both re-checks discard that component. -/
def finishAfterDeps (env : InstallEnv) (sat : Bool) (msys : List String)
    (canInstall : Bool) : Bool × InstallEff :=
  if ¬ sat then
    if ¬ msys.isEmpty ∧ ¬ canInstall then (false, cleanupClone env)
    else if ¬ msys.isEmpty then (false, cleanupClone env)
    else (true, installFinishEff)
  else (true, installFinishEff)

/-- Embedding of the post-clone phase of `install` (source lines
1102-1313).  The system-package install attempt (lines 1129-1144) is
guarded in the source by `'dependencies' in gitpm_json` where
`gitpm_json` is the un-unpacked tuple returned by `load_gitpm_json`, so
that condition is always false at runtime; it is kept as the environment
field `sysBlockTupleCond`. -/
def installPostClone (system : Bool) (skip_dependency_check : Bool) (env : InstallEnv) :
    Bool × InstallEff :=
  if skip_dependency_check then (true, installFinishEff)
  else
    let d1 := env.deps1
    match d1.jsonError with
    | some _ => (false, cleanupClone env)
    | none =>
      if d1.satisfied then (true, installFinishEff)
      else
        let afterSys : Bool × List String × List String :=
          if ¬ d1.missingSystem.isEmpty ∧ d1.canInstall ∧ env.sysBlockTupleCond
             ∧ env.methodTruthy ∧ env.sysInstallOk then
            (env.deps2.satisfied, env.deps2.missingSystem, env.deps2.missingGitpm)
          else (d1.satisfied, d1.missingSystem, d1.missingGitpm)
        if ¬ afterSys.2.2.isEmpty ∧ ¬ d1.depInfo.isEmpty then
          if processDeps system env 0 d1.depInfo then
            finishAfterDeps env env.deps3.satisfied env.deps3.missingSystem d1.canInstall
          else (false, cleanupClone env)
        else
          finishAfterDeps env afterSys.1 afterSys.2.1 d1.canInstall

/-! ### Statement-side definitions -/

/-- The shape of the file map with permission bits erased: path, `is_file`
flag and content of every node. -/
def filesShape (fs : Files) : List (String × Bool × FileData) :=
  fs.map (fun e => (e.1, e.2.isFile, e.2.data))

/-- The first alternative of a group whose resolved name is installed. -/
def firstInstalledAlt (installed : Registry) (alts : List String) : Option String :=
  alts.find? (fun a => (lookupReg (depNameOf a) installed).isSome)

/-- A minimal installed record at a given path, for concrete witnesses. -/
def mkRec (p : String) : InstalledRec :=
  { url := "u", user := "x", name := "n", repo_name := "n", branch := none, path := p,
    setup_script := none, remove_script := none, update_script := none, check_script := none }

/-- An execution environment where every external interaction succeeds
and every probe is negative, for concrete witnesses. -/
def execEnv0 : ExecEnv :=
  { chmodRaises := fun _ => false, runScriptExit := fun _ => 0, fetchOk := true,
    revParse := fun _ => "", checkoutOk := true, resetOk := true, cleanOk := true,
    pullOk := true, hasLocalChanges := false, contentCheckout := 1, contentReset := 2,
    contentClean := 3, contentPull := 4, rmtreeRaises := false }

/-- A system environment where nothing is installed and no elevation is
available, for concrete witnesses. -/
def sysEnv0 : SysEnv :=
  { sysPkg := fun _ => false, hasSudo := false, euidZero := false }

/-- Concrete state for the check-only update counterexample: one package
at `/r` whose tree holds a non-executable `setup.sh`. -/
def stC5 : PMState :=
  { installed := [("pkg", mkRec "/r")], savedReg := [("pkg", mkRec "/r")],
    dirs := ["/r"],
    files := [("/r/setup.sh", { isFile := true, mode := 420, data := FileData.invalid })],
    contents := [("/r", 0)] }

/-- Concrete filesystem for the `system_only`-without-`dependencies`
counterexample: a manifest declaring only `system_only: true`. -/
def fsC1 : Files :=
  [("/r/gitpm.json",
    { isFile := true, mode := 420,
      data := FileData.json (JVal.jdict [("system_only", JVal.jbool true)]) })]

/-- The exact ref `target` appears among the parsed `ls-remote` output
lines: some line's second tab-field is exactly `target`. -/
def hasExactRef (stdout target : String) : Prop :=
  ∃ l ∈ pySplit '\n' stdout, (pySplit '\t' l).get? 1 = some target

/-- Manifest entries declaring `system_only: true` alongside an (empty)
`dependencies` section, for the scope-fatal witness. -/
def esC1b : List (String × JVal) :=
  [("system_only", JVal.jbool true), ("dependencies", JVal.jdict [])]

/-- Concrete filesystem holding the `esC1b` manifest. -/
def fsC1b : Files :=
  [("/r/gitpm.json", { isFile := true, mode := 420, data := FileData.json (JVal.jdict esC1b) })]

/-- Manifest entries whose `dependencies.system.check_commands` holds an
alternative group with a non-string member: `check_system_package`
swallows the probe `TypeError`, the raw number lands in `missing`, the
evaluation completes without raising — and the user-scope fatal is still
produced. -/
def esC1c : List (String × JVal) :=
  [("system_only", JVal.jbool true),
   ("dependencies", JVal.jdict
     [("system", JVal.jdict
        [("check_commands", JVal.jlist [JVal.jlist [JVal.jnum 1]])]),
      ("gitpm", JVal.jlist [])])]

/-- Concrete filesystem holding the `esC1c` manifest. -/
def fsC1c : Files :=
  [("/r/gitpm.json", { isFile := true, mode := 420, data := FileData.json (JVal.jdict esC1c) })]

/-- A concrete two-alternative group for witnesses: the second
alternative carries an explicit name after two commas. -/
def altsW : List String := ["https://x/a.git", "https://x/b.git,,depb"]

/-- A post-clone install environment whose first dependency check reports
a manifest JSON error, with rmtree succeeding. -/
def envW : InstallEnv :=
  { deps1 := { satisfied := false, missingSystem := [], missingGitpm := [],
               canInstall := false, depInfo := [], jsonError := some "Invalid JSON" },
    sysBlockTupleCond := false, methodTruthy := false, sysInstallOk := false,
    deps2 := { satisfied := true, missingSystem := [], missingGitpm := [],
               canInstall := false, depInfo := [], jsonError := none },
    depOut := fun _ => { choice := none, compatOk := true, depJson := none,
                         installOk := true },
    deps3 := { satisfied := true, missingSystem := [], missingGitpm := [],
               canInstall := false, depInfo := [], jsonError := none },
    rmtreeOk := true }

/-- The body of `parse_repo_url` after the strip/`.git`-removal
preprocessing, factored out on the processed character list. -/
def parseUrlCore (u2 : List Char) : String × String × String :=
  if startsWithStr "http://" (String.mk u2) ∨ startsWithStr "https://" (String.mk u2) then
    let snp := urlparseSNP u2
    match splitOnChar '/' (pyStripCharL '/' snp.2.2) with
    | user :: repo :: _ =>
      (String.mk snp.1 ++ "://" ++ String.mk snp.2.1 ++ "/" ++ String.mk user ++ "/"
        ++ String.mk repo ++ ".git", String.mk user, String.mk repo)
    | _ => parseUrlFallback u2
  else if startsWithStr "git@" (String.mk u2) then
    match gitAtMatch (u2.drop 4) with
    | some (host, user, repo) =>
      ("git@" ++ String.mk host ++ ":" ++ String.mk user ++ "/" ++ String.mk repo ++ ".git",
        String.mk user, String.mk repo)
    | none => parseUrlFallback u2
  else if '/' ∈ u2 ∧ ¬ startsWithStr "http" (String.mk u2) then
    match splitOnChar '/' u2 with
    | [user, repo] =>
      ("https://github.com/" ++ String.mk user ++ "/" ++ String.mk repo ++ ".git",
        String.mk user, String.mk repo)
    | _ => parseUrlFallback u2
  else parseUrlFallback u2

/-! ## Auxiliary lemmas -/

theorem splitOnChar_ne_nil (c : Char) (l : List Char) : splitOnChar c l ≠ [] := by
  cases l with
  | nil => simp [splitOnChar]
  | cons x xs =>
    simp only [splitOnChar]
    split
    · simp
    · split <;> simp

theorem splitOnChar_not_mem {c : Char} : ∀ {l : List Char}, c ∉ l → splitOnChar c l = [l]
  | [], _ => rfl
  | x :: xs, h => by
    have hx : ¬ x = c := fun he => h (he ▸ List.mem_cons_self x xs)
    have ih : splitOnChar c xs = [xs] := splitOnChar_not_mem (fun hm => h (List.mem_cons_of_mem x hm))
    simp only [splitOnChar, if_neg hx, ih]

theorem splitOnChar_append {c : Char} : ∀ {xs : List Char} (ys : List Char), c ∉ xs →
    splitOnChar c (xs ++ c :: ys) = xs :: splitOnChar c ys
  | [], ys, _ => by simp [splitOnChar]
  | x :: xs, ys, h => by
    have hx : ¬ x = c := fun he => h (he ▸ List.mem_cons_self x xs)
    have ih := @splitOnChar_append c xs ys (fun hm => h (List.mem_cons_of_mem x hm))
    simp only [List.cons_append, splitOnChar, if_neg hx]
    rw [show xs.append (c :: ys) = xs ++ c :: ys from rfl, ih]

theorem mem_of_mem_splitOnChar {c : Char} :
    ∀ {l : List Char} {p : List Char}, p ∈ splitOnChar c l → ∀ {x}, x ∈ p → x ∈ l
  | [], p, hp, x, hx => by
    simp [splitOnChar] at hp; subst hp; simp at hx
  | a :: xs, p, hp, x, hx => by
    simp only [splitOnChar] at hp
    by_cases ha : a = c
    · rw [if_pos ha] at hp
      rcases List.mem_cons.mp hp with h1 | h2
      · subst h1; simp at hx
      · exact List.mem_cons_of_mem a (mem_of_mem_splitOnChar h2 hx)
    · rw [if_neg ha] at hp
      rcases hrec : splitOnChar c xs with _ | ⟨y, ys⟩
      · exact absurd hrec (splitOnChar_ne_nil c xs)
      · rw [hrec] at hp
        rcases List.mem_cons.mp hp with h1 | h2
        · subst h1
          rcases List.mem_cons.mp hx with h3 | h4
          · exact h3 ▸ List.mem_cons_self a xs
          · exact List.mem_cons_of_mem a
              (mem_of_mem_splitOnChar (hrec ▸ List.mem_cons_self y ys) h4)
        · exact List.mem_cons_of_mem a
            (mem_of_mem_splitOnChar (hrec ▸ List.mem_cons_of_mem y h2) hx)

theorem takeWhile_append_all {p : Char → Bool} :
    ∀ {xs : List Char} (ys : List Char), (∀ x ∈ xs, p x = true) →
      (xs ++ ys).takeWhile p = xs ++ ys.takeWhile p
  | [], ys, _ => rfl
  | x :: xs, ys, h => by
    have hx : p x = true := h x (List.mem_cons_self x xs)
    have ih := @takeWhile_append_all p xs ys (fun a ha => h a (List.mem_cons_of_mem x ha))
    simp [List.takeWhile_cons_of_pos hx, ih]

theorem dropWhile_append_all {p : Char → Bool} :
    ∀ {xs : List Char} (ys : List Char), (∀ x ∈ xs, p x = true) →
      (xs ++ ys).dropWhile p = ys.dropWhile p
  | [], ys, _ => rfl
  | x :: xs, ys, h => by
    have hx : p x = true := h x (List.mem_cons_self x xs)
    have ih := @dropWhile_append_all p xs ys (fun a ha => h a (List.mem_cons_of_mem x ha))
    simp [List.dropWhile_cons_of_pos hx, ih]

theorem takeWhile_eq_self {p : Char → Bool} {l : List Char} (h : ∀ x ∈ l, p x = true) :
    l.takeWhile p = l := by
  have := @takeWhile_append_all p l [] h
  simpa using this

theorem takeWhile_append_stop {p : Char → Bool} {xs : List Char} {y : Char} (ys : List Char)
    (h : ∀ x ∈ xs, p x = true) (hy : p y = false) :
    (xs ++ y :: ys).takeWhile p = xs := by
  rw [takeWhile_append_all _ h, List.takeWhile_cons_of_neg (by simp [hy]), List.append_nil]

theorem dropWhile_append_stop {p : Char → Bool} {xs : List Char} {y : Char} (ys : List Char)
    (h : ∀ x ∈ xs, p x = true) (hy : p y = false) :
    (xs ++ y :: ys).dropWhile p = y :: ys := by
  rw [dropWhile_append_all _ h, List.dropWhile_cons_of_neg (by simp [hy])]

theorem mem_dropWhile_of_neg {p : Char → Bool} :
    ∀ {l : List Char} {x : Char}, x ∈ l → p x = false → x ∈ l.dropWhile p
  | a :: xs, x, hx, hp => by
    by_cases ha : p a = true
    · rw [List.dropWhile_cons_of_pos ha]
      rcases List.mem_cons.mp hx with h1 | h2
      · exact absurd (h1 ▸ ha) (by simp [hp])
      · exact mem_dropWhile_of_neg h2 hp
    · rw [List.dropWhile_cons_of_neg ha]; exact hx

theorem mem_pyStripL {l : List Char} {x : Char} (hx : x ∈ l) (hs : isPySpace x = false) :
    x ∈ pyStripL l := by
  unfold pyStripL
  have h1 : x ∈ l.dropWhile isPySpace := mem_dropWhile_of_neg hx hs
  have h2 : x ∈ (l.dropWhile isPySpace).reverse := List.mem_reverse.mpr h1
  have h3 : x ∈ (l.dropWhile isPySpace).reverse.dropWhile isPySpace :=
    mem_dropWhile_of_neg h2 hs
  exact List.mem_reverse.mpr h3

theorem pyStripL_eq_self {l : List Char}
    (h1 : ∀ c, l.head? = some c → isPySpace c = false)
    (h2 : ∀ c, l.getLast? = some c → isPySpace c = false) : pyStripL l = l := by
  unfold pyStripL
  have hd : l.dropWhile isPySpace = l := by
    cases l with
    | nil => rfl
    | cons a t => exact List.dropWhile_cons_of_neg (by simp [h1 a rfl])
  rw [hd]
  have hr : l.reverse.dropWhile isPySpace = l.reverse := by
    cases hrev : l.reverse with
    | nil => rfl
    | cons b r =>
      have hb : l.getLast? = some b := by
        rw [← List.head?_reverse, hrev]; rfl
      exact List.dropWhile_cons_of_neg (by simp [h2 b hb])
  rw [hr, List.reverse_reverse]

theorem length_dropWhile_le (p : Char → Bool) (l : List Char) :
    (l.dropWhile p).length ≤ l.length := by
  induction l with
  | nil => simp
  | cons a t ih =>
    by_cases h : p a = true
    · rw [List.dropWhile_cons_of_pos h]; exact Nat.le_succ_of_le ih
    · rw [List.dropWhile_cons_of_neg h]

theorem pyStripL_self_head {l : List Char} (h : pyStripL l = l) :
    (∀ c, l.head? = some c → isPySpace c = false) ∧
    (∀ c, l.getLast? = some c → isPySpace c = false) := by
  have e1 : (pyStripL l).length = ((l.dropWhile isPySpace).reverse.dropWhile isPySpace).length := by
    unfold pyStripL
    exact List.length_reverse _
  have le2 : ((l.dropWhile isPySpace).reverse.dropWhile isPySpace).length
      ≤ (l.dropWhile isPySpace).length :=
    le_trans (length_dropWhile_le _ _) (le_of_eq (List.length_reverse _))
  have le3 : (l.dropWhile isPySpace).length ≤ l.length := length_dropWhile_le _ _
  have hll : (pyStripL l).length = l.length := by rw [h]
  have hdlen : (l.dropWhile isPySpace).length = l.length := by omega
  have hd : l.dropWhile isPySpace = l := (List.dropWhile_suffix _).eq_of_length hdlen
  have h2 : (l.reverse.dropWhile isPySpace).reverse = l := by
    have h3 := h
    unfold pyStripL at h3
    rwa [hd] at h3
  have hrd : l.reverse.dropWhile isPySpace = l.reverse := by
    have h4 := congrArg List.reverse h2
    rwa [List.reverse_reverse] at h4
  constructor
  · intro c hc
    by_contra hsp
    rw [Bool.not_eq_false] at hsp
    cases l with
    | nil => simp at hc
    | cons a t =>
      have hac : a = c := by simpa using hc
      have h5 : (a :: t).dropWhile isPySpace = t.dropWhile isPySpace :=
        List.dropWhile_cons_of_pos (by rw [hac]; exact hsp)
      rw [h5] at hd
      have h6 := congrArg List.length hd
      have h7 := length_dropWhile_le isPySpace t
      simp only [List.length_cons] at h6
      omega
  · intro c hc
    by_contra hsp
    rw [Bool.not_eq_false] at hsp
    rcases hrev : l.reverse with _ | ⟨b, r⟩
    · have : l = [] := by simpa using congrArg List.reverse hrev
      subst this
      simp at hc
    · have hb : b = c := by
        have h8 := List.head?_reverse l
        rw [hrev, hc] at h8
        simpa using h8
      have h9 : l.reverse.dropWhile isPySpace = r.dropWhile isPySpace := by
        rw [hrev]
        exact List.dropWhile_cons_of_pos (by rw [hb]; exact hsp)
      rw [h9, hrev] at hrd
      have h10 := congrArg List.length hrd
      have h11 := length_dropWhile_le isPySpace r
      simp only [List.length_cons] at h10
      omega

theorem isPrefixOf_append_self (p rest : List Char) : p.isPrefixOf (p ++ rest) = true :=
  List.isPrefixOf_iff_prefix.mpr (List.prefix_append p rest)

theorem not_prefix_append_sep :
    ∀ (p O : List Char) (rest : List Char) (c : Char), c ∉ p →
      p.isPrefixOf O = false → p.isPrefixOf (O ++ c :: rest) = false
  | [], O, rest, c, _, h => by simp [List.isPrefixOf] at h
  | a :: p', [], rest, c, hc, _ => by
    have hac : (a == c) = false := by
      simp only [beq_eq_false_iff_ne]
      intro he
      exact hc (he ▸ List.mem_cons_self a p')
    simp [List.isPrefixOf, hac]
  | a :: p', b :: O', rest, c, hc, h => by
    simp only [List.isPrefixOf, List.cons_append, Bool.and_eq_false_iff] at h ⊢
    rcases h with h1 | h2
    · exact Or.inl h1
    · exact Or.inr (not_prefix_append_sep p' O' rest c
        (fun hm => hc (List.mem_cons_of_mem a hm)) h2)

theorem endsWithL_append (l p : List Char) : endsWithL p (l ++ p) = true := by
  unfold endsWithL
  rw [List.reverse_append]
  exact isPrefixOf_append_self _ _

theorem endsWithL_boundary {R : List Char} (pre : List Char)
    (h : endsWithL ".git".data R = false) :
    endsWithL ".git".data (pre ++ '/' :: R) = false := by
  by_contra hcon
  rw [Bool.not_eq_false] at hcon
  unfold endsWithL at hcon h
  have hpre : (".git".data.reverse) <+: (pre ++ '/' :: R).reverse :=
    List.isPrefixOf_iff_prefix.mp hcon
  obtain ⟨t, ht⟩ := hpre
  have hshape : (pre ++ '/' :: R).reverse = R.reverse ++ '/' :: pre.reverse := by
    rw [List.reverse_append, List.reverse_cons, List.append_assoc]
    rfl
  rw [hshape] at ht
  rcases List.append_eq_append_iff.mp ht with ⟨a2, ha1, _⟩ | ⟨c2, hc1, hc2⟩
  · have : (".git".data.reverse).isPrefixOf R.reverse = true :=
      List.isPrefixOf_iff_prefix.mpr ⟨a2, ha1.symm⟩
    rw [this] at h
    cases h
  · cases c2 with
    | nil =>
      rw [List.append_nil] at hc1
      have : (".git".data.reverse).isPrefixOf R.reverse = true := by
        rw [← hc1]
        have := isPrefixOf_append_self (".git".data.reverse) []
        rwa [List.append_nil] at this
      rw [this] at h
      cases h
    | cons d c3 =>
      have hd : d = '/' := by
        have := hc2
        rw [List.cons_append] at this
        exact (List.cons.injEq _ _ _ _ ▸ this).1.symm
      have hmem : '/' ∈ ".git".data.reverse := by
        rw [hc1]
        exact List.mem_append_right _ (hd ▸ List.mem_cons_self d c3)
      revert hmem
      decide


theorem lookupReg_eraseReg (n : String) (r : Registry) :
    lookupReg n (eraseReg n r) = none := by
  unfold lookupReg eraseReg
  rw [List.find?_eq_none.mpr]
  · rfl
  · intro x hx
    have h2 := (List.mem_filter.mp hx).2
    simp only [decide_eq_true_eq] at h2
    simp [h2]

/-! ## Claim theorems -/

/-- C6: `load_gitpm_json` probes `gitpm.json` then `.gitpm.json` in that
fixed order and returns the parsed content of the first existing file; a
parse failure on that first existing candidate is a hard error (the error
component is set, distinct from absence) and the second filename is not
tried (the result is fully determined by the first candidate's node);
when the first candidate is absent or not a regular file the second
decides, and when neither exists the result is absent with no error. -/
theorem load_gitpm_json_probe_order (repoPath : String) (fs : Files) :
    (∀ n, lookupFile (repoPath ++ "/" ++ "gitpm.json") fs = some n → n.isFile = true →
      load_gitpm_json repoPath fs = readJsonOutcome "gitpm.json" n)
    ∧ (∀ n, lookupFile (repoPath ++ "/" ++ "gitpm.json") fs = some n → n.isFile = true →
        n.data = FileData.invalid →
        load_gitpm_json repoPath fs = (none, some "Invalid JSON in gitpm.json"))
    ∧ ((∀ n ∈ lookupFile (repoPath ++ "/" ++ "gitpm.json") fs, n.isFile = false) →
        load_gitpm_json repoPath fs =
          (match lookupFile (repoPath ++ "/" ++ ".gitpm.json") fs with
           | some n => if n.isFile then readJsonOutcome ".gitpm.json" n else (none, none)
           | none => (none, none)))
    ∧ (lookupFile (repoPath ++ "/" ++ "gitpm.json") fs = none →
       lookupFile (repoPath ++ "/" ++ ".gitpm.json") fs = none →
       load_gitpm_json repoPath fs = (none, none)) := by
  refine ⟨?_, ?_, ?_, ?_⟩
  · intro n h1 h2
    unfold load_gitpm_json loadMarkerLoop
    rw [h1]
    simp [h2]
  · intro n h1 h2 h3
    unfold load_gitpm_json loadMarkerLoop
    rw [h1]
    simp [h2, readJsonOutcome, h3]
  · intro hnone
    have e : load_gitpm_json repoPath fs =
        (match lookupFile (repoPath ++ "/" ++ "gitpm.json") fs with
         | some n => if n.isFile then readJsonOutcome "gitpm.json" n
                     else loadMarkerLoop repoPath fs [".gitpm.json"]
         | none => loadMarkerLoop repoPath fs [".gitpm.json"]) := rfl
    have e2 : loadMarkerLoop repoPath fs [".gitpm.json"] =
        (match lookupFile (repoPath ++ "/" ++ ".gitpm.json") fs with
         | some n => if n.isFile then readJsonOutcome ".gitpm.json" n else (none, none)
         | none => (none, none)) := rfl
    rw [e]
    cases h1 : lookupFile (repoPath ++ "/" ++ "gitpm.json") fs with
    | none => exact e2
    | some n =>
      have h3 := hnone n (by rw [h1]; rfl)
      simp only [h3, Bool.false_eq_true, if_false]
      exact e2
  · intro h1 h2
    have e : load_gitpm_json repoPath fs =
        (match lookupFile (repoPath ++ "/" ++ "gitpm.json") fs with
         | some n => if n.isFile then readJsonOutcome "gitpm.json" n
                     else loadMarkerLoop repoPath fs [".gitpm.json"]
         | none => loadMarkerLoop repoPath fs [".gitpm.json"]) := rfl
    have e2 : loadMarkerLoop repoPath fs [".gitpm.json"] =
        (match lookupFile (repoPath ++ "/" ++ ".gitpm.json") fs with
         | some n => if n.isFile then readJsonOutcome ".gitpm.json" n else (none, none)
         | none => (none, none)) := rfl
    rw [e, h1, e2, h2]

theorem load_gitpm_json_probe_order_witness :
    load_gitpm_json "/r"
      [("/r/gitpm.json", { isFile := true, mode := 420, data := FileData.invalid }),
       ("/r/.gitpm.json", { isFile := true, mode := 420, data := FileData.json JVal.jnull })]
      = (none, some "Invalid JSON in gitpm.json") :=
  (load_gitpm_json_probe_order "/r"
    [("/r/gitpm.json", { isFile := true, mode := 420, data := FileData.invalid }),
     ("/r/.gitpm.json", { isFile := true, mode := 420, data := FileData.json JVal.jnull })]).2.1
    { isFile := true, mode := 420, data := FileData.invalid } rfl rfl rfl

/-- C8: removing a registered package whose recorded installation path no
longer exists on disk succeeds, deletes the registry entry (the name no
longer resolves) and persists the shrunken registry, and performs no hook
execution and no directory deletion (empty event trace). -/
theorem remove_missing_path_purges (system skip : Bool) (name : String) (st : PMState)
    (env : ExecEnv) (info : InstalledRec)
    (hlook : lookupReg name st.installed = some info)
    (hmiss : info.path ∉ st.dirs) :
    remove system name skip st env =
      (true, { st with installed := eraseReg name st.installed,
                       savedReg := eraseReg name st.installed }, [])
    ∧ lookupReg name (remove system name skip st env).2.1.installed = none := by
  have hmain : remove system name skip st env =
      (true, { st with installed := eraseReg name st.installed,
                       savedReg := eraseReg name st.installed }, []) := by
    unfold remove
    rw [hlook]
    simp [hmiss]
  refine ⟨hmain, ?_⟩
  rw [hmain]
  exact lookupReg_eraseReg name st.installed

theorem remove_missing_path_purges_witness :
    remove false "pkg" false
      { installed := [("pkg", mkRec "/gone")], savedReg := [("pkg", mkRec "/gone")],
        dirs := [], files := [], contents := [] } execEnv0 =
      (true, { installed := [], savedReg := [],
               dirs := [], files := [], contents := [] }, [])
    ∧ lookupReg "pkg" (remove false "pkg" false
        { installed := [("pkg", mkRec "/gone")], savedReg := [("pkg", mkRec "/gone")],
          dirs := [], files := [], contents := [] } execEnv0).2.1.installed = none := by
  have h := remove_missing_path_purges false false "pkg"
    { installed := [("pkg", mkRec "/gone")], savedReg := [("pkg", mkRec "/gone")],
      dirs := [], files := [], contents := [] } execEnv0 (mkRec "/gone") rfl (by decide)
  refine ⟨?_, h.2⟩
  rw [h.1]
  rfl

/-- C10: when the recorded installation path exists but deleting it fails
(`shutil.rmtree` raises), `remove` returns failure with the registry entry
still present and unchanged and the persisted registry untouched; the
entry is deleted and persisted exactly when directory deletion succeeds. -/
theorem remove_rmtree_failure_atomic (system skip : Bool) (name : String) (st : PMState)
    (env : ExecEnv) (info : InstalledRec)
    (hlook : lookupReg name st.installed = some info)
    (hdir : info.path ∈ st.dirs) :
    (env.rmtreeRaises = true →
      (remove system name skip st env).1 = false
      ∧ (remove system name skip st env).2.1.installed = st.installed
      ∧ (remove system name skip st env).2.1.savedReg = st.savedReg)
    ∧ (env.rmtreeRaises = false →
      (remove system name skip st env).1 = true
      ∧ lookupReg name (remove system name skip st env).2.1.installed = none
      ∧ (remove system name skip st env).2.1.savedReg =
          (remove system name skip st env).2.1.installed) := by
  have hnotnot : ¬ (info.path ∉ st.dirs) := by simp [hdir]
  constructor
  · intro hfail
    unfold remove
    simp only [hlook]
    rw [if_neg hnotnot]
    simp only [hfail, if_true]
    refine ⟨?_, ?_, ?_⟩ <;>
      first
        | trivial
        | (split <;> first
            | trivial
            | (split <;> first
                | trivial
                | (split <;> first
                    | trivial
                    | (split <;> trivial))))
  · intro hok
    unfold remove
    simp only [hlook]
    rw [if_neg hnotnot]
    simp only [hok, Bool.false_eq_true, if_false]
    refine ⟨?_, ?_, ?_⟩
    · trivial
    · exact lookupReg_eraseReg name _
    · trivial

theorem remove_rmtree_failure_atomic_witness :
    (remove false "pkg" false
      { installed := [("pkg", mkRec "/r")], savedReg := [("pkg", mkRec "/r")],
        dirs := ["/r"], files := [], contents := [] }
      { execEnv0 with rmtreeRaises := true }).1 = false
    ∧ (remove false "pkg" false
      { installed := [("pkg", mkRec "/r")], savedReg := [("pkg", mkRec "/r")],
        dirs := ["/r"], files := [], contents := [] }
      { execEnv0 with rmtreeRaises := true }).2.1.installed = [("pkg", mkRec "/r")] := by
  have h := (remove_rmtree_failure_atomic false false "pkg"
    { installed := [("pkg", mkRec "/r")], savedReg := [("pkg", mkRec "/r")],
      dirs := ["/r"], files := [], contents := [] }
    { execEnv0 with rmtreeRaises := true } (mkRec "/r") rfl (by decide)).1 rfl
  exact ⟨h.1, h.2.1⟩

theorem string_mk_ne_empty {l : List Char} (h : l ≠ []) : String.mk l ≠ "" := by
  intro hcon
  exact h (congrArg String.data hcon)

theorem pyStrip_ne_empty {l : String} {c : Char} (hc : c ∈ l.data)
    (hsp : isPySpace c = false) : pyTruthyStr (pyStrip l) = true := by
  unfold pyTruthyStr pyStrip
  simp only [decide_eq_true_eq]
  exact string_mk_ne_empty (fun hnil => by
    have := mem_pyStripL hc hsp
    rw [hnil] at this
    simp at this)

theorem lineMatchesRef_iff (target l : String) {c : Char} (hc : c ∈ target.data)
    (hsp : isPySpace c = false) :
    lineMatchesRef target l = true ↔ (pySplit '\t' l).get? 1 = some target := by
  unfold lineMatchesRef
  constructor
  · intro h
    rcases Bool.and_eq_true_iff.mp h with ⟨_, h2⟩
    rcases hsp2 : pySplit '\t' l with _ | ⟨x, _ | ⟨r, rest⟩⟩
    · rw [hsp2] at h2; cases h2
    · rw [hsp2] at h2; cases h2
    · rw [hsp2] at h2
      simp only [beq_iff_eq] at h2
      simp [h2]
  · intro h
    rcases hsp2 : pySplit '\t' l with _ | ⟨x, _ | ⟨r, rest⟩⟩
    · rw [hsp2] at h; cases h
    · rw [hsp2] at h; cases h
    · rw [hsp2] at h
      have hr : r = target := by simpa using h
      have hstrip : pyTruthyStr (pyStrip l) = true := by
        have hrl : r ∈ pySplit '\t' l := by
          rw [hsp2]; exact List.mem_cons_of_mem x (List.mem_cons_self r rest)
        unfold pySplit at hrl
        rcases List.mem_map.mp hrl with ⟨piece, hpiece, hmk⟩
        have hcl : c ∈ l.data := by
          apply mem_of_mem_splitOnChar hpiece
          have : piece = r.data := by rw [← hmk]
          rw [this, hr]
          exact hc
        exact pyStrip_ne_empty hcl hsp
      rw [Bool.and_eq_true_iff]
      refine ⟨hstrip, ?_⟩
      simp [hr]

theorem filter_ref_iff (stdout target : String) {c : Char} (hc : c ∈ target.data)
    (hsp : isPySpace c = false) :
    ((pySplit '\n' stdout).filter (lineMatchesRef target)).isEmpty = true ↔
      ¬ hasExactRef stdout target := by
  rw [List.isEmpty_iff, List.filter_eq_nil]
  unfold hasExactRef
  constructor
  · intro h hcon
    rcases hcon with ⟨l, hl, hg⟩
    exact h l hl ((lineMatchesRef_iff target l hc hsp).mpr hg)
  · intro h l hl hm
    exact h ⟨l, hl, (lineMatchesRef_iff target l hc hsp).mp hm⟩

/-- C7: with the remote reachable (`ls-remote` exit 0) and a branch
requested, `verify_repo` succeeds exactly when `refs/heads/<branch>`
appears exactly as a ref field of the output; when it does not but
`refs/tags/<branch>` does, the specific tag-not-branch message is
returned; when neither appears, the generic branch-not-found message is
returned. -/
theorem verify_repo_branch_refs (ls : LsRemote) (b : String) (hrc : ls.rc = 0) :
    (verify_repo ls (some b) = (true, "") ↔
      hasExactRef ls.stdout ("refs/heads/" ++ b))
    ∧ (¬ hasExactRef ls.stdout ("refs/heads/" ++ b) →
       hasExactRef ls.stdout ("refs/tags/" ++ b) →
       verify_repo ls (some b) =
         (false, "\x27" ++ b ++ "\x27 exists as a tag, not a branch. Please use a branch name."))
    ∧ (¬ hasExactRef ls.stdout ("refs/heads/" ++ b) →
       ¬ hasExactRef ls.stdout ("refs/tags/" ++ b) →
       verify_repo ls (some b) =
         (false, "Branch \x27" ++ b ++ "\x27 not found in repository")) := by
  have hch : 'r' ∈ ("refs/heads/" ++ b).data := by
    rw [String.data_append]
    apply List.mem_append_left
    decide
  have hct : 'r' ∈ ("refs/tags/" ++ b).data := by
    rw [String.data_append]
    apply List.mem_append_left
    decide
  have hspr : isPySpace 'r' = false := by decide
  have hmain : verify_repo ls (some b) =
      (if ((pySplit '\n' ls.stdout).filter (lineMatchesRef ("refs/heads/" ++ b))).isEmpty then
        (if ((pySplit '\n' ls.stdout).filter (lineMatchesRef ("refs/tags/" ++ b))).isEmpty then
          (false, "Branch \x27" ++ b ++ "\x27 not found in repository")
         else
          (false, "\x27" ++ b ++ "\x27 exists as a tag, not a branch. Please use a branch name."))
       else (true, "")) := by
    unfold verify_repo
    rw [if_neg (by simp [hrc])]
  refine ⟨?_, ?_, ?_⟩
  · rw [hmain]
    constructor
    · intro h
      by_cases he : ((pySplit '\n' ls.stdout).filter (lineMatchesRef ("refs/heads/" ++ b))).isEmpty = true
      · rw [if_pos he] at h
        split at h <;> simp at h
      · have := (not_iff_not.mpr (filter_ref_iff ls.stdout ("refs/heads/" ++ b) hch hspr)).mp
          (by simpa using he)
        simpa using this
    · intro h
      rw [if_neg (by
        intro he
        exact (filter_ref_iff ls.stdout ("refs/heads/" ++ b) hch hspr).mp he h)]
  · intro h1 h2
    rw [hmain, if_pos ((filter_ref_iff ls.stdout ("refs/heads/" ++ b) hch hspr).mpr h1),
      if_neg (by
        intro he
        exact (filter_ref_iff ls.stdout ("refs/tags/" ++ b) hct hspr).mp he h2)]
  · intro h1 h2
    rw [hmain, if_pos ((filter_ref_iff ls.stdout ("refs/heads/" ++ b) hch hspr).mpr h1),
      if_pos ((filter_ref_iff ls.stdout ("refs/tags/" ++ b) hct hspr).mpr h2)]

theorem verify_repo_branch_refs_witness :
    verify_repo { rc := 0, stdout := "aaaa\trefs/heads/main\nbbbb\trefs/tags/v1", stderr := "" }
      (some "main") = (true, "")
    ∧ verify_repo { rc := 0, stdout := "aaaa\trefs/heads/main\nbbbb\trefs/tags/v1", stderr := "" }
      (some "v1") =
      (false, "\x27v1\x27 exists as a tag, not a branch. Please use a branch name.") := by
  constructor
  · exact (verify_repo_branch_refs
      { rc := 0, stdout := "aaaa\trefs/heads/main\nbbbb\trefs/tags/v1", stderr := "" }
      "main" rfl).1.mpr (by
        refine ⟨"aaaa\trefs/heads/main", by decide, by decide⟩)
  · exact (verify_repo_branch_refs
      { rc := 0, stdout := "aaaa\trefs/heads/main\nbbbb\trefs/tags/v1", stderr := "" }
      "v1" rfl).2.1
      (by
        have hnot : ¬ ∃ l ∈ pySplit '\n' "aaaa\trefs/heads/main\nbbbb\trefs/tags/v1",
            (pySplit '\t' l).get? 1 = some ("refs/heads/" ++ "v1") := by decide
        exact hnot)
      ⟨"bbbb\trefs/tags/v1", by decide, by decide⟩

theorem filesShape_setMode (p : String) (m : Nat) (fs : Files) :
    filesShape (setMode p m fs) = filesShape fs := by
  unfold filesShape setMode
  rw [List.map_map]
  apply List.map_congr_left
  intro e _
  by_cases h : e.1 = p <;> simp [h]

theorem filesShape_run_script (env : ExecEnv) (sp : String) (fs : Files) :
    filesShape (run_script env sp fs).2 = filesShape fs := by
  unfold run_script
  split
  · exact filesShape_setMode _ _ _
  · rfl

theorem filesShape_probeChmod (n p : String) (env : ExecEnv) (fs : Files) :
    filesShape (probeChmod n p env fs) = filesShape fs := by
  unfold probeChmod
  split
  · exact filesShape_setMode _ _ _
  · rfl

theorem filesShape_probeScript (rp : String) (env : ExecEnv) :
    ∀ (ns : List String) (fs : Files), filesShape (probeScript rp env fs ns).2 = filesShape fs
  | [], _ => rfl
  | n :: rest, fs => by
    unfold probeScript
    cases h : lookupFile (rp ++ "/" ++ n) fs with
    | none => exact filesShape_probeScript rp env rest fs
    | some node =>
      by_cases hf : node.isFile = true
      · simp only [hf, if_true]
        split
        · exact filesShape_probeChmod _ _ _ _
        · rw [filesShape_probeScript rp env rest _, filesShape_probeChmod]
      · dsimp only
        rw [if_neg hf]
        exact filesShape_probeScript rp env rest fs

theorem filesShape_check_scripts (system : Bool) (rp : String) (env : ExecEnv) (fs : Files) :
    filesShape (check_scripts system rp env fs).2 = filesShape fs := by
  unfold check_scripts
  simp only [filesShape_probeScript]

/-- C5 (amended): a named check-only update leaves the registry, the
persisted registry, the directory set and the git-managed tree contents
untouched, runs no tree-mutating git command, and preserves the file
set, file kinds and file contents — only permission bits may change
(the chmod performed by hook-script discovery). -/
theorem update_check_only_frame (system : Bool) (name : String) (st : PMState)
    (env : ExecEnv) :
    (updateOne system name true st env).2.1.installed = st.installed
    ∧ (updateOne system name true st env).2.1.savedReg = st.savedReg
    ∧ (updateOne system name true st env).2.1.dirs = st.dirs
    ∧ (updateOne system name true st env).2.1.contents = st.contents
    ∧ filesShape (updateOne system name true st env).2.1.files = filesShape st.files
    ∧ ∀ c ∈ (updateOne system name true st env).2.2, gitMutatesTree c = false := by
  unfold updateOne
  cases hl : lookupReg name st.installed with
  | none => simp
  | some info =>
    dsimp only
    by_cases hd : info.path ∉ st.dirs
    · simp only [hd, if_true]
      simp
    · rw [if_neg hd]
      by_cases hfet : env.fetchOk = true
      · rw [if_neg (by simp [hfet])]
        refine ⟨?_, ?_, ?_, ?_, ?_, ?_⟩ <;>
          (repeat' split) <;>
            simp_all [filesShape_check_scripts, filesShape_run_script, gitMutatesTree]
      · rw [if_pos (by simp [hfet])]
        refine ⟨rfl, rfl, rfl, rfl, rfl, ?_⟩
        intro c hc
        simp only [List.mem_singleton] at hc
        subst hc
        rfl

/-- Counterexample to C5 as stated: a check-only update of `pkg` (no
update available) reports success and leaves the registry untouched, yet
mutates the working tree: hook discovery chmods the non-executable
`setup.sh` from mode 0644 to 0755. -/
theorem update_check_only_chmod_cex :
    (updateOne false "pkg" true stC5 execEnv0).1 = true
    ∧ (lookupFile "/r/setup.sh" stC5.files).map FileNode.mode = some 420
    ∧ (lookupFile "/r/setup.sh"
        (updateOne false "pkg" true stC5 execEnv0).2.1.files).map FileNode.mode = some 493
    ∧ (updateOne false "pkg" true stC5 execEnv0).2.1.installed = stC5.installed := by
  refine ⟨?_, ?_, ?_, ?_⟩ <;> rfl

/-- Counterexample to C1 as stated: in user scope, a manifest declaring
`system_only: true` but containing no `dependencies` key makes
`check_dependencies` return structural success with no error at all — the
fatal scope check (source line 734) sits behind the early return at line
699 that fires whenever the `dependencies` key is missing, so no
"requires system-wide installation" error is produced. -/
theorem check_dependencies_system_only_no_deps_cex :
    check_dependencies false "Arch" [] "/r" fsC1 sysEnv0 =
      some (true, [], [], false, [], none) := rfl

/-- C1 (amended): in user scope, a manifest that declares a truthy
`system_only` AND contains a `dependencies` key makes `check_dependencies`
return the fatal "requires system-wide installation" error, whatever the
dependency content, provided evaluation raises no Python exception; a
`system_only` manifest without a `dependencies` key instead passes
structurally with no error (see the counterexample).  In system scope the
error component is always `none` whenever the manifest loads without a
parse error, so no scope fatal is ever produced. -/
theorem check_dependencies_scope_fatal :
    (∀ (distro : String) (installed : Registry) (repoPath : String) (fs : Files)
        (env : SysEnv) (es : List (String × JVal)),
      (load_gitpm_json repoPath fs).1 = some (JVal.jdict es) →
      (load_gitpm_json repoPath fs).2 = none →
      pyTruthy (((List.find? (fun e => e.1 = "system_only") es).map (fun e => e.2)).getD
        (JVal.jbool false)) = true →
      es.any (fun e => e.1 = "dependencies") = true →
      ∀ r, check_dependencies false distro installed repoPath fs env = some r →
        r = (false, [], [], false, [],
          some "This package requires system-wide installation (use --system flag)"))
    ∧ (∀ (distro : String) (installed : Registry) (repoPath : String) (fs : Files)
        (env : SysEnv) (mj : Option JVal),
      load_gitpm_json repoPath fs = (mj, none) →
      ∀ r, check_dependencies true distro installed repoPath fs env = some r →
        r.2.2.2.2.2 = none) := by
  constructor
  · intro distro installed repoPath fs env es h1 h2 hso hdeps r hr
    have hlj : load_gitpm_json repoPath fs = (some (JVal.jdict es), none) := Prod.ext h1 h2
    have hne : es ≠ [] := by
      intro hnil
      rw [hnil] at hdeps
      cases hdeps
    have htr : pyTruthyOpt (some (JVal.jdict es)) = true := by
      simp [pyTruthyOpt, pyTruthy, List.isEmpty_iff, hne]
    unfold check_dependencies at hr
    rw [hlj] at hr
    dsimp only at hr
    rw [if_neg (show ¬ (¬ pyTruthyOpt (some (JVal.jdict es)) = true) from by simp [htr])] at hr
    simp only [Option.bind_eq_bind, Option.some_bind] at hr
    have hcd : pyContainsStr "dependencies" (JVal.jdict es) = some true := by
      simp [pyContainsStr, hdeps]
    rw [hcd, Option.some_bind] at hr
    rw [if_neg (show ¬ (¬ (true : Bool) = true) from by simp)] at hr
    obtain ⟨x, hx, hpx⟩ := List.any_eq_true.mp hdeps
    rcases hfind : List.find? (fun e => e.1 = "dependencies") es with _ | fv
    · refine absurd hpx ?_
      have hn := List.find?_eq_none.mp hfind x hx
      simpa using hn
    · have hgi : pyGetItemStr (JVal.jdict es) "dependencies" = some fv.2 := by
        simp [pyGetItemStr, hfind]
      rw [hgi, Option.some_bind] at hr
      rw [Option.bind_eq_some] at hr
      obtain ⟨hasSys, hhs, hr⟩ := hr
      rw [Option.bind_eq_some] at hr
      obtain ⟨msys, hmsys, hr⟩ := hr
      rw [Option.bind_eq_some] at hr
      obtain ⟨hasGit, hhg, hr⟩ := hr
      rw [Option.bind_eq_some] at hr
      obtain ⟨gr, hgr, hr⟩ := hr
      have hsoc : pyDictGet (JVal.jdict es) "system_only" (JVal.jbool false) =
          some (((List.find? (fun e => e.1 = "system_only") es).map
            (fun e => e.2)).getD (JVal.jbool false)) := by
        simp [pyDictGet]
      rw [hsoc, Option.some_bind] at hr
      rw [if_pos (show pyTruthy (((List.find? (fun e => e.1 = "system_only") es).map
          (fun e => e.2)).getD (JVal.jbool false)) = true ∧ ¬ (false : Bool) = true from
        ⟨hso, by simp⟩)] at hr
      simpa using hr.symm
  · intro distro installed repoPath fs env mj hload r hr
    unfold check_dependencies at hr
    rw [hload] at hr
    dsimp only at hr
    by_cases htr : pyTruthyOpt mj = true
    · rw [if_neg (by simp [htr])] at hr
      simp only [Option.bind_eq_bind] at hr
      rw [Option.bind_eq_some] at hr
      obtain ⟨v, hv, hr⟩ := hr
      rw [Option.bind_eq_some] at hr
      obtain ⟨hasDeps, hhd, hr⟩ := hr
      by_cases hhdv : hasDeps = true
      · subst hhdv
        rw [if_neg (show ¬ (¬ (true : Bool) = true) from by simp)] at hr
        rw [Option.bind_eq_some] at hr
        obtain ⟨deps, hdepsv, hr⟩ := hr
        rw [Option.bind_eq_some] at hr
        obtain ⟨hasSys, hhs, hr⟩ := hr
        rw [Option.bind_eq_some] at hr
        obtain ⟨msys, hmsys, hr⟩ := hr
        rw [Option.bind_eq_some] at hr
        obtain ⟨hasGit, hhg, hr⟩ := hr
        rw [Option.bind_eq_some] at hr
        obtain ⟨gr, hgr, hr⟩ := hr
        rw [Option.bind_eq_some] at hr
        obtain ⟨so, hsov, hr⟩ := hr
        rw [if_neg (by simp)] at hr
        rw [if_neg (by simp)] at hr
        simp only [Option.pure_def, Option.some.injEq] at hr
        rw [← hr]
      · have hhdv2 : hasDeps = false := by
          cases hv2 : hasDeps
          · rfl
          · exact absurd hv2 hhdv
        subst hhdv2
        rw [if_pos (by simp)] at hr
        simp only [Option.pure_def, Option.some.injEq] at hr
        rw [← hr]
    · rw [if_pos (by simp [htr])] at hr
      simp only [Option.some.injEq] at hr
      rw [← hr]

theorem check_dependencies_scope_fatal_witness :
    (load_gitpm_json "/r" fsC1b).1 = some (JVal.jdict esC1b)
    ∧ (load_gitpm_json "/r" fsC1b).2 = none
    ∧ pyTruthy (((List.find? (fun e => e.1 = "system_only") esC1b).map (fun e => e.2)).getD
        (JVal.jbool false)) = true
    ∧ esC1b.any (fun e => e.1 = "dependencies") = true
    ∧ check_dependencies false "Arch" [] "/r" fsC1b sysEnv0 =
        some (false, [], [], false, [],
          some "This package requires system-wide installation (use --system flag)")
    ∧ check_dependencies false "Arch" [] "/r" fsC1c sysEnv0 =
        some (false, [], [], false, [],
          some "This package requires system-wide installation (use --system flag)")
    ∧ ((false, [], [], false, [],
        some "This package requires system-wide installation (use --system flag)") :
          Bool × List JVal × List String × Bool × List DepInfo × Option String) =
      (false, [], [], false, [],
        some "This package requires system-wide installation (use --system flag)")
    ∧ (((true, [], [], false, [], none) :
          Bool × List JVal × List String × Bool × List DepInfo × Option String)).2.2.2.2.2
        = none :=
  ⟨rfl, rfl, by decide, by decide, rfl, rfl,
    (check_dependencies_scope_fatal.1 "Arch" [] "/r" fsC1c sysEnv0 esC1c
      rfl rfl (by decide) (by decide))
      (false, [], [], false, [],
        some "This package requires system-wide installation (use --system flag)") rfl,
    check_dependencies_scope_fatal.2 "Arch" [] "/r" fsC1b sysEnv0
      (some (JVal.jdict esC1b)) rfl
      (true, [], [], false, [], none) rfl⟩

theorem installedSysOnlyCheck_cases (system : Bool) (fs : Files) (n : String)
    (r : InstalledRec) :
    ∀ so, installedSysOnlyCheck system fs n r = some so → so = [] ∨ so = [n] := by
  intro so h
  unfold installedSysOnlyCheck at h
  split at h
  · split at h
    · split at h
      · simp only [Option.bind_eq_bind, Option.bind_eq_some] at h
        obtain ⟨sov, _, h⟩ := h
        simp only [Option.pure_def, Option.some.injEq] at h
        split at h
        · exact Or.inr h.symm
        · exact Or.inl h.symm
      · simp only [Option.pure_def, Option.some.injEq] at h
        exact Or.inl h.symm
    · simp only [Option.pure_def, Option.some.injEq] at h
      exact Or.inl h.symm
  · simp only [Option.pure_def, Option.some.injEq] at h
    exact Or.inl h.symm

theorem installedSysOnlyCheck_system (fs : Files) (n : String) (r : InstalledRec) :
    installedSysOnlyCheck true fs n r = some [] := by
  unfold installedSysOnlyCheck
  simp

theorem groupFind_none (system : Bool) (installed : Registry) (fs : Files) :
    ∀ (alts : List String), firstInstalledAlt installed alts = none →
      groupFindInstalled system installed fs (alts.map JVal.jstr) = some (false, [])
  | [], _ => rfl
  | a :: rest, h => by
    unfold firstInstalledAlt at h
    rw [List.find?_cons] at h
    have step : groupFindInstalled system installed fs
        (JVal.jstr a :: rest.map JVal.jstr) =
        (match lookupReg (depNameOf a) installed with
         | some r => (installedSysOnlyCheck system fs (depNameOf a) r).bind
             fun so => some (true, so)
         | none => groupFindInstalled system installed fs (rest.map JVal.jstr)) := rfl
    rcases hp : (lookupReg (depNameOf a) installed).isSome with _ | _
    · rw [hp] at h
      have hnone : lookupReg (depNameOf a) installed = none :=
        Option.not_isSome_iff_eq_none.mp (by simp [hp])
      have ih := groupFind_none system installed fs rest (by
        unfold firstInstalledAlt
        exact h)
      rw [List.map_cons, step]
      simp only [hnone]
      exact ih
    · rw [hp] at h
      cases h

theorem groupFind_some (system : Bool) (installed : Registry) (fs : Files) :
    ∀ (alts : List String) (a0 : String),
      firstInstalledAlt installed alts = some a0 →
      ∀ res, groupFindInstalled system installed fs (alts.map JVal.jstr) = some res →
        res.1 = true ∧ (res.2 = [] ∨ res.2 = [depNameOf a0])
          ∧ (system = true → res.2 = [])
  | [], a0, h => by cases h
  | a :: rest, a0, h => by
    intro res hres
    unfold firstInstalledAlt at h
    rw [List.find?_cons] at h
    have step : groupFindInstalled system installed fs
        (JVal.jstr a :: rest.map JVal.jstr) =
        (match lookupReg (depNameOf a) installed with
         | some r => (installedSysOnlyCheck system fs (depNameOf a) r).bind
             fun so => some (true, so)
         | none => groupFindInstalled system installed fs (rest.map JVal.jstr)) := rfl
    rcases hp : (lookupReg (depNameOf a) installed).isSome with _ | _
    · rw [hp] at h
      have hnone : lookupReg (depNameOf a) installed = none :=
        Option.not_isSome_iff_eq_none.mp (by simp [hp])
      rw [List.map_cons, step] at hres
      simp only [hnone] at hres
      exact groupFind_some system installed fs rest a0 (by unfold firstInstalledAlt; exact h)
        res hres
    · rw [hp] at h
      have ha0 : a0 = a := by simpa using h.symm
      subst ha0
      obtain ⟨rc, hrc⟩ := Option.isSome_iff_exists.mp hp
      rw [List.map_cons, step] at hres
      simp only [hrc, Option.bind_eq_some] at hres
      obtain ⟨so, hso, hres⟩ := hres
      simp only [Option.some.injEq] at hres
      subst hres
      refine ⟨rfl, installedSysOnlyCheck_cases system fs (depNameOf a0) rc so hso, ?_⟩
      intro hsys
      subst hsys
      rw [installedSysOnlyCheck_system fs (depNameOf a0) rc] at hso
      simpa using hso.symm

theorem mapM_asString_jstr : ∀ (alts : List String),
    (alts.map JVal.jstr).mapM asString = some alts
  | [] => rfl
  | a :: rest => by
    simp only [List.map_cons, List.mapM_cons, asString, Option.bind_eq_bind,
      Option.some_bind, mapM_asString_jstr rest]
    rfl

theorem gitpm_group_missing_eq (system : Bool) (installed : Registry) (fs : Files)
    (a : String) (rest : List String)
    (hnone : firstInstalledAlt installed (a :: rest) = none) :
    check_gitpm_dependencies system installed fs
        (JVal.jlist [JVal.jlist ((a :: rest).map JVal.jstr)]) =
      some (false, [depNameOf a],
        [{ name := depNameOf a, url := depUrlOf a, branch := depBranchOf a,
           alternatives := a :: rest }], []) := by
  have hgf := groupFind_none system installed fs (a :: rest) hnone
  unfold check_gitpm_dependencies gitpmDepsLoop
  simp only [pyIter, Option.some_bind, Option.bind_eq_bind]
  rw [hgf]
  simp only [Option.some_bind]
  rw [if_neg (by simp)]
  rw [mapM_asString_jstr (a :: rest)]
  simp [gitpmDepsLoop, asString]

/-- C3: one alternative-group peer-dependency entry, with all descriptors
strings.  Whenever `check_gitpm_dependencies` completes without a Python
exception: satisfied (and not counted missing) exactly when some
alternative\x27s resolved name is a registry key; when some alternative is
installed, the scope-violation list can only name the first installed
alternative and is empty in system scope; when none is installed the
entry is missing and its dependency info carries the full alternative
list. -/
theorem check_gitpm_dependencies_alternatives
    (system : Bool) (installed : Registry) (fs : Files) (alts : List String)
    (hne : alts ≠ []) :
    (∀ res, check_gitpm_dependencies system installed fs
        (JVal.jlist [JVal.jlist (alts.map JVal.jstr)]) = some res →
      ((res.1 = true ↔ ∃ a ∈ alts, (lookupReg (depNameOf a) installed).isSome = true)
       ∧ (res.2.1 = [] ↔ ∃ a ∈ alts, (lookupReg (depNameOf a) installed).isSome = true)
       ∧ (∀ a0, firstInstalledAlt installed alts = some a0 →
            res.2.1 = [] ∧ res.2.2.1 = []
            ∧ (res.2.2.2 = [] ∨ res.2.2.2 = [depNameOf a0])
            ∧ (system = true → res.2.2.2 = []))))
    ∧ (firstInstalledAlt installed alts = none →
       check_gitpm_dependencies system installed fs
          (JVal.jlist [JVal.jlist (alts.map JVal.jstr)]) =
        some (false, [depNameOf (alts.headD "")],
          [{ name := depNameOf (alts.headD ""), url := depUrlOf (alts.headD ""),
             branch := depBranchOf (alts.headD ""), alternatives := alts }], [])) := by
  constructor
  · intro res hres
    rcases hfst : firstInstalledAlt installed alts with _ | a0
    · have hex : ¬ ∃ a ∈ alts, (lookupReg (depNameOf a) installed).isSome = true := by
        intro ⟨a, ha, hpa⟩
        have := List.find?_eq_none.mp hfst a ha
        exact absurd hpa this
      rcases alts with _ | ⟨a, rest⟩
      · exact absurd rfl hne
      · rw [gitpm_group_missing_eq system installed fs a rest hfst] at hres
        have hres2 : (false, [depNameOf a],
            [{ name := depNameOf a, url := depUrlOf a, branch := depBranchOf a,
               alternatives := a :: rest } ], ([] : List String)) = res := by
          simpa using hres
        subst hres2
        refine ⟨?_, ?_, ?_⟩
        · exact ⟨fun hf => absurd hf (by simp), fun hex2 => absurd hex2 hex⟩
        · exact ⟨fun hf => absurd hf (by simp), fun hex2 => absurd hex2 hex⟩
        · intro a1 ha1
          exact absurd ha1 (by simp)
    · have hexist : ∃ a ∈ alts, (lookupReg (depNameOf a) installed).isSome = true := by
        refine ⟨a0, List.mem_of_find?_eq_some hfst, ?_⟩
        have := List.find?_some hfst
        simpa using this
      unfold check_gitpm_dependencies gitpmDepsLoop at hres
      simp only [pyIter, Option.some_bind, Option.bind_eq_bind] at hres
      rcases hgf : groupFindInstalled system installed fs (alts.map JVal.jstr)
        with _ | gres
      · rw [hgf] at hres
        simp at hres
      · rw [hgf] at hres
        have hchar := groupFind_some system installed fs alts a0 hfst gres hgf
        simp only [Option.some_bind] at hres
        rw [if_pos hchar.1] at hres
        simp only [Option.pure_def, Option.some_bind, Option.bind_eq_some] at hres
        obtain ⟨tl, htl, hres⟩ := hres
        obtain ⟨w, hw, htl⟩ := htl
        have hw2 : w = (([] : List String), ([] : List DepInfo), ([] : List String)) := by
          simpa [gitpmDepsLoop] using hw.symm
        subst hw2
        have htl2 : tl = (([] : List String), ([] : List DepInfo), gres.2) := by
          simpa using htl.symm
        subst htl2
        have hres2 : res = (true, ([] : List String), ([] : List DepInfo), gres.2) := by
          simpa using hres.symm
        subst hres2
        refine ⟨?_, ?_, ?_⟩
        · simp [hexist]
        · simp [hexist]
        · intro a1 ha1
          have ha1e : a0 = a1 := by simpa using ha1
          subst ha1e
          refine ⟨?_, ?_, ?_, ?_⟩
          · simp
          · simp
          · simpa using hchar.2.1
          · intro hsys
            simpa using hchar.2.2 hsys
  · intro hnone
    rcases alts with _ | ⟨a, rest⟩
    · exact absurd rfl hne
    · simpa using gitpm_group_missing_eq system installed fs a rest hnone

/-- Witness for the C3 theorem at a concrete two-alternative group whose
second member names an installed package, plus the missing-case equation
with an empty registry. -/
theorem check_gitpm_dependencies_alternatives_witness :
    ((true : Bool) = true ↔
      ∃ a ∈ altsW, (lookupReg (depNameOf a) [("depb", mkRec "/d2")]).isSome = true)
    ∧ check_gitpm_dependencies false [] []
        (JVal.jlist [JVal.jlist (altsW.map JVal.jstr)]) =
      some (false, [depNameOf (altsW.headD "")],
        [{ name := depNameOf (altsW.headD ""), url := depUrlOf (altsW.headD ""),
           branch := depBranchOf (altsW.headD ""), alternatives := altsW }], []) :=
  ⟨((check_gitpm_dependencies_alternatives false [("depb", mkRec "/d2")] [] altsW
      (by decide)).1 (true, [], [], []) rfl).1,
   (check_gitpm_dependencies_alternatives false [] [] altsW (by decide)).2 (by decide)⟩

theorem processDeps_depOut (system : Bool) (e1 e2 : InstallEnv)
    (h : e1.depOut = e2.depOut) :
    ∀ (l : List DepInfo) (k : Nat),
      processDeps system e1 k l = processDeps system e2 k l
  | [], _ => rfl
  | dep :: rest, k => by
    unfold processDeps
    rw [h, processDeps_depOut system e1 e2 h rest (k + 1)]

theorem finishAfterDeps_cases (env : InstallEnv) (sat : Bool) (msys : List String)
    (canI : Bool) :
    finishAfterDeps env sat msys canI = (true, installFinishEff)
    ∨ finishAfterDeps env sat msys canI = (false, cleanupClone env) := by
  unfold finishAfterDeps
  repeat' split
  all_goals first
    | exact Or.inl rfl
    | exact Or.inr rfl

theorem installPostClone_cases (system skip : Bool) (env : InstallEnv) :
    installPostClone system skip env = (true, installFinishEff)
    ∨ installPostClone system skip env = (false, cleanupClone env) := by
  simp only [installPostClone]
  repeat' split
  all_goals first
    | exact Or.inl rfl
    | exact Or.inr rfl
    | exact finishAfterDeps_cases env _ _ _

/-- C2: after the clone exists, every fatal outcome of the post-clone
phase runs the clone-cleanup block (so the install directory is gone
whenever rmtree succeeds) and registers nothing; and the fatal outcome
itself is insensitive to whether that cleanup rmtree succeeds or fails. -/
theorem install_cleanup_on_failure (system skip : Bool) (env env2 : InstallEnv)
    (h1 : env2.deps1 = env.deps1) (h2 : env2.sysBlockTupleCond = env.sysBlockTupleCond)
    (h3 : env2.methodTruthy = env.methodTruthy) (h4 : env2.sysInstallOk = env.sysInstallOk)
    (h5 : env2.deps2 = env.deps2) (h6 : env2.depOut = env.depOut)
    (h7 : env2.deps3 = env.deps3) :
    ((installPostClone system skip env).1 = false →
      (installPostClone system skip env).2.cleanupAttempted = true
      ∧ (installPostClone system skip env).2.registered = false
      ∧ (env.rmtreeOk = true → (installPostClone system skip env).2.dirExists = false))
    ∧ (installPostClone system skip env2).1 = (installPostClone system skip env).1 := by
  constructor
  · intro hf
    rcases installPostClone_cases system skip env with h | h
    · rw [h] at hf
      exact absurd hf (by simp)
    · rw [h]
      refine ⟨rfl, rfl, fun hr => ?_⟩
      simp [cleanupClone, hr]
  · simp only [installPostClone, finishAfterDeps, h1, h2, h3, h4, h5, h7,
      processDeps_depOut system env2 env h6]
    repeat' split
    all_goals rfl

/-- Witness: a dependency-check JSON error after the clone yields a fatal
result with the cleanup attempted, nothing registered, and the clone
directory removed (rmtree succeeded). -/
theorem install_cleanup_on_failure_witness :
    (installPostClone false false envW).1 = false
    ∧ (installPostClone false false envW).2.cleanupAttempted = true
    ∧ (installPostClone false false envW).2.registered = false
    ∧ (installPostClone false false envW).2.dirExists = false
    ∧ (installPostClone false false envW).1 = (installPostClone false false envW).1 :=
  ⟨rfl,
   ((install_cleanup_on_failure false false envW envW rfl rfl rfl rfl rfl rfl rfl).1 rfl).1,
   ((install_cleanup_on_failure false false envW envW rfl rfl rfl rfl rfl rfl rfl).1 rfl).2.1,
   ((install_cleanup_on_failure false false envW envW rfl rfl rfl rfl rfl rfl rfl).1 rfl).2.2 rfl,
   (install_cleanup_on_failure false false envW envW rfl rfl rfl rfl rfl rfl rfl).2⟩

theorem string_eq_of_data (a b : String) (h : a.data = b.data) : a = b :=
  congrArg String.mk h

theorem getLast?_append_right {l1 l2 : List Char} (h : l2 ≠ []) :
    (l1 ++ l2).getLast? = l2.getLast? := by
  induction l1 with
  | nil => rfl
  | cons a t ih =>
    rw [List.cons_append]
    rcases he : t ++ l2 with _ | ⟨x, xs⟩
    · exact absurd (List.append_eq_nil.mp he).2 h
    · rw [he] at ih
      rw [List.getLast?_cons_cons]
      exact ih

theorem pyStrip_concat_fix {s t : String} (hs : pyStrip s = s) (ht : pyStrip t = t) :
    pyStrip (s ++ "," ++ t) = s ++ "," ++ t := by
  have hsh := pyStripL_self_head (congrArg String.data hs)
  have hth := pyStripL_self_head (congrArg String.data ht)
  have hcomma : (",").data = [','] := rfl
  have hdata : (s ++ "," ++ t).data = s.data ++ ',' :: t.data := by
    simp [String.data_append, hcomma]
  unfold pyStrip
  rw [hdata]
  rw [pyStripL_eq_self ?hh ?hl]
  · exact (string_eq_of_data _ _ hdata).symm
  case hh =>
    intro c hc
    rcases hsd : s.data with _ | ⟨a, u⟩
    · rw [hsd] at hc
      simp only [List.nil_append, List.head?_cons, Option.some.injEq] at hc
      subst hc
      decide
    · rw [hsd] at hc
      simp only [List.cons_append, List.head?_cons, Option.some.injEq] at hc
      subst hc
      exact hsh.1 a (by rw [hsd]; rfl)
  case hl =>
    intro c hc
    rcases htd : t.data with _ | ⟨b, u⟩
    · rw [htd, getLast?_append_right (by simp)] at hc
      simp only [List.getLast?_singleton, Option.some.injEq] at hc
      subst hc
      decide
    · rw [htd, getLast?_append_right (by simp)] at hc
      rw [List.getLast?_cons_cons] at hc
      exact hth.2 c (by rw [htd]; exact hc)

theorem pySplit_comma_append (f1 r : String) (h1c : (',' : Char) ∉ f1.data) :
    pySplit ',' (f1 ++ "," ++ r) = f1 :: pySplit ',' r := by
  have hcomma : (",").data = [','] := rfl
  have hdata : (f1 ++ "," ++ r).data = f1.data ++ ',' :: r.data := by
    simp [String.data_append, hcomma]
  unfold pySplit
  rw [hdata, splitOnChar_append _ h1c]
  rfl

theorem pySplit_not_mem (f : String) (hc : (',' : Char) ∉ f.data) :
    pySplit ',' f = [f] := by
  unfold pySplit
  rw [splitOnChar_not_mem hc]
  rfl

theorem parseConfigLine_one (label f1 : String)
    (h1 : pyStrip f1 = f1) (h1n : f1 ≠ "") (h1h : ¬ startsWithStr "#" f1 = true)
    (h1c : (',' : Char) ∉ f1.data) :
    parseConfigLine label f1 =
      some { url := f1, branch := none, name := none, source_file := label } := by
  have hsplit := pySplit_not_mem f1 h1c
  have hcond : pyTruthyStr f1 = true ∧ ¬ startsWithStr "#" f1 = true :=
    ⟨by simp [pyTruthyStr, h1n], h1h⟩
  simp only [parseConfigLine, h1]
  rw [if_pos hcond, hsplit]
  simp [h1, h1n]

theorem parseConfigLine_two (label f1 f2 : String)
    (h1 : pyStrip f1 = f1) (h1n : f1 ≠ "") (h1h : ¬ startsWithStr "#" f1 = true)
    (h1c : (',' : Char) ∉ f1.data) (h2 : pyStrip f2 = f2)
    (h2c : (',' : Char) ∉ f2.data) :
    parseConfigLine label (f1 ++ "," ++ f2) =
      some { url := f1, branch := if f2 ≠ "" then some f2 else none,
             name := none, source_file := label } := by
  have hcomma : (",").data = [','] := rfl
  have hdata : (f1 ++ "," ++ f2).data = f1.data ++ ',' :: f2.data := by
    simp [String.data_append, hcomma]
  have hstrip := pyStrip_concat_fix h1 h2
  have hsplit : pySplit ',' (f1 ++ "," ++ f2) = [f1, f2] := by
    rw [pySplit_comma_append f1 f2 h1c, pySplit_not_mem f2 h2c]
  have hne : (f1 ++ "," ++ f2) ≠ "" := fun he => by
    have hd := congrArg String.data he
    rw [hdata] at hd
    exact absurd hd (by simp)
  have hh : ¬ startsWithStr "#" (f1 ++ "," ++ f2) = true := by
    unfold startsWithStr at h1h ⊢
    rw [hdata]
    have h1f : ("#").data.isPrefixOf f1.data = false := by
      rw [Bool.eq_false_iff]
      exact h1h
    rw [not_prefix_append_sep ("#").data f1.data f2.data ',' (by decide) h1f]
    simp
  have hcond : pyTruthyStr (f1 ++ "," ++ f2) = true
      ∧ ¬ startsWithStr "#" (f1 ++ "," ++ f2) = true :=
    ⟨by simp [pyTruthyStr, hne], hh⟩
  simp only [parseConfigLine, hstrip]
  rw [if_pos hcond, hsplit]
  simp [h1, h2, h1n]

theorem parseConfigLine_three (label f1 f2 f3 : String)
    (h1 : pyStrip f1 = f1) (h1n : f1 ≠ "") (h1h : ¬ startsWithStr "#" f1 = true)
    (h1c : (',' : Char) ∉ f1.data) (h2 : pyStrip f2 = f2)
    (h2c : (',' : Char) ∉ f2.data) (h3 : pyStrip f3 = f3)
    (h3c : (',' : Char) ∉ f3.data) :
    parseConfigLine label (f1 ++ "," ++ f2 ++ "," ++ f3) =
      some { url := f1, branch := if f2 ≠ "" then some f2 else none,
             name := if f3 ≠ "" then some f3 else none, source_file := label } := by
  have hcomma : (",").data = [','] := rfl
  have hassoc : f1 ++ "," ++ f2 ++ "," ++ f3 = f1 ++ "," ++ (f2 ++ "," ++ f3) :=
    string_eq_of_data _ _ (by simp [String.data_append])
  rw [hassoc]
  have hdata : (f1 ++ "," ++ (f2 ++ "," ++ f3)).data
      = f1.data ++ ',' :: (f2 ++ "," ++ f3).data := by
    simp [String.data_append, hcomma]
  have hstripR := pyStrip_concat_fix h2 h3
  have hstrip := pyStrip_concat_fix h1 hstripR
  have hassoc2 : f1 ++ "," ++ (f2 ++ "," ++ f3) = f1 ++ "," ++ f2 ++ "," ++ f3 := hassoc.symm
  have hsplit : pySplit ',' (f1 ++ "," ++ (f2 ++ "," ++ f3)) = [f1, f2, f3] := by
    rw [pySplit_comma_append f1 (f2 ++ "," ++ f3) h1c,
        pySplit_comma_append f2 f3 h2c, pySplit_not_mem f3 h3c]
  have hne : (f1 ++ "," ++ (f2 ++ "," ++ f3)) ≠ "" := fun he => by
    have hd := congrArg String.data he
    rw [hdata] at hd
    exact absurd hd (by simp)
  have hh : ¬ startsWithStr "#" (f1 ++ "," ++ (f2 ++ "," ++ f3)) = true := by
    unfold startsWithStr at h1h ⊢
    rw [hdata]
    have h1f : ("#").data.isPrefixOf f1.data = false := by
      rw [Bool.eq_false_iff]
      exact h1h
    rw [not_prefix_append_sep ("#").data f1.data (f2 ++ "," ++ f3).data ',' (by decide) h1f]
    simp
  have hstrip2 : pyStrip (f1 ++ "," ++ (f2 ++ "," ++ f3)) = f1 ++ "," ++ (f2 ++ "," ++ f3) := by
    rw [hassoc2]
    exact hassoc ▸ hstrip
  have hcond : pyTruthyStr (f1 ++ "," ++ (f2 ++ "," ++ f3)) = true
      ∧ ¬ startsWithStr "#" (f1 ++ "," ++ (f2 ++ "," ++ f3)) = true :=
    ⟨by simp [pyTruthyStr, hne], hh⟩
  simp only [parseConfigLine, hstrip2]
  rw [if_pos hcond, hsplit]
  simp [h1, h2, h3, h1n]

/-- C9: catalog lines.  Empty and comment lines produce no entry; a line
whose first comma field is blank is skipped; a line that is a single
comma-free URL parses with absent branch and name; and for every entry
whose fields are strip-fixed, comma-free and (for URL/branch/name values)
non-empty, parsing the re-serialised `url[,branch[,name]]` line
reproduces the entry exactly. -/
theorem load_config_line_roundtrip (label : String) :
    (∀ line, pyStrip line = "" → parseConfigLine label line = none)
    ∧ (∀ line, startsWithStr "#" (pyStrip line) = true →
        parseConfigLine label line = none)
    ∧ (∀ line, ((pySplit ',' (pyStrip line)).map pyStrip).headD "" = "" →
        parseConfigLine label line = none)
    ∧ (∀ url, pyStrip url = url → url ≠ "" → ¬ startsWithStr "#" url = true →
        (',' : Char) ∉ url.data →
        parseConfigLine label url =
          some { url := url, branch := none, name := none, source_file := label })
    ∧ (∀ e : RepoEntry, pyStrip e.url = e.url → e.url ≠ "" →
        ¬ startsWithStr "#" e.url = true → (',' : Char) ∉ e.url.data →
        (∀ b, e.branch = some b → pyStrip b = b ∧ b ≠ "" ∧ (',' : Char) ∉ b.data) →
        (∀ n, e.name = some n → pyStrip n = n ∧ n ≠ "" ∧ (',' : Char) ∉ n.data) →
        e.source_file = label →
        parseConfigLine label (serializeRepoEntry e) = some e) := by
  refine ⟨?_, ?_, ?_, ?_, ?_⟩
  · intro line h
    simp only [parseConfigLine, h]
    rw [if_neg (by simp [pyTruthyStr])]
  · intro line h
    simp only [parseConfigLine]
    rw [if_neg (fun hc => hc.2 h)]
  · intro line h
    have h2 : (Option.map pyStrip (pySplit ',' (pyStrip line)).head?).getD "" = "" := by
      simpa using h
    simp [parseConfigLine, h2]
  · intro url h1 h1n h1h h1c
    exact parseConfigLine_one label url h1 h1n h1h h1c
  · rintro ⟨url, branch, name, sf⟩ h1 h1n h1h h1c hbr hnm hsf
    simp only at h1 h1n h1h h1c hbr hnm hsf
    rw [hsf]
    cases branch with
    | none =>
      cases name with
      | none =>
        exact parseConfigLine_one label url h1 h1n h1h h1c
      | some n =>
        obtain ⟨hn, hnn, hnc⟩ := hnm n rfl
        have heq : url ++ ",," ++ n = url ++ "," ++ "" ++ "," ++ n :=
          string_eq_of_data _ _ (by simp [String.data_append])
        have h3 := parseConfigLine_three label url "" n h1 h1n h1h h1c rfl (by simp) hn hnc
        simp only [serializeRepoEntry]
        rw [heq, h3, if_neg (by simp), if_pos hnn]
    | some b =>
      obtain ⟨hb, hbn, hbc⟩ := hbr b rfl
      cases name with
      | none =>
        have h2 := parseConfigLine_two label url b h1 h1n h1h h1c hb hbc
        simp only [serializeRepoEntry]
        rw [h2, if_pos hbn]
      | some n =>
        obtain ⟨hn, hnn, hnc⟩ := hnm n rfl
        have h3 := parseConfigLine_three label url b n h1 h1n h1h h1c hb hbc hn hnc
        simp only [serializeRepoEntry]
        rw [h3, if_pos hbn, if_pos hnn]

/-- Witness for the C9 theorem: an all-space line, a comment line, a
blank-URL line, a URL-only line and a serialised URL-plus-name entry. -/
theorem load_config_line_roundtrip_witness :
    parseConfigLine "cat" "   " = none
    ∧ parseConfigLine "cat" "# comment" = none
    ∧ parseConfigLine "cat" " , x" = none
    ∧ parseConfigLine "cat" "https://h/o/r.git" =
        some { url := "https://h/o/r.git", branch := none, name := none,
               source_file := "cat" }
    ∧ parseConfigLine "cat" (serializeRepoEntry
        { url := "https://h/o/r.git", branch := none, name := some "nm",
          source_file := "cat" }) =
        some { url := "https://h/o/r.git", branch := none, name := some "nm",
               source_file := "cat" } :=
  ⟨(load_config_line_roundtrip "cat").1 "   " (by decide),
   (load_config_line_roundtrip "cat").2.1 "# comment" (by decide),
   (load_config_line_roundtrip "cat").2.2.1 " , x" (by decide),
   (load_config_line_roundtrip "cat").2.2.2.1 "https://h/o/r.git" (by decide)
     (by decide) (by decide) (by decide),
   (load_config_line_roundtrip "cat").2.2.2.2
     { url := "https://h/o/r.git", branch := none, name := some "nm",
       source_file := "cat" }
     (by decide) (by decide) (by decide) (by decide)
     (fun b hb => absurd hb (by simp))
     (fun n hn => by
       simp only [Option.some.injEq] at hn
       subst hn
       exact ⟨by decide, by decide, by decide⟩)
     rfl⟩

theorem parse_repo_url_def (url : String) :
    parse_repo_url url = parseUrlCore
      (if endsWithL (".git").data (pyStripL url.data) then dropRightL (pyStripL url.data) 4
       else pyStripL url.data) := rfl

theorem isPrefixOf_append_false : ∀ (p q x : List Char),
    p.isPrefixOf x = false → (p ++ q).isPrefixOf x = false
  | [], _, x, h => by simp [List.isPrefixOf] at h
  | a :: p', q, [], _ => by simp [List.isPrefixOf]
  | a :: p', q, b :: x', h => by
    simp only [List.cons_append, List.isPrefixOf, Bool.and_eq_false_iff] at h ⊢
    rcases h with h1 | h2
    · exact Or.inl h1
    · exact Or.inr (isPrefixOf_append_false p' q x' h2)

theorem pyStripCharL_slash {S : List Char}
    (hh : ∀ c, S.head? = some c → c ≠ '/')
    (hl : ∀ c, S.getLast? = some c → c ≠ '/') :
    pyStripCharL '/' ('/' :: S) = S := by
  unfold pyStripCharL
  have h1 : ('/' :: S).dropWhile (fun x => x = '/') = S.dropWhile (fun x => x = '/') :=
    List.dropWhile_cons_of_pos (by decide)
  have h2 : S.dropWhile (fun x => x = '/') = S := by
    cases hS : S with
    | nil => rfl
    | cons a t =>
      exact List.dropWhile_cons_of_neg (by simp [hh a (by rw [hS]; rfl)])
  rw [h1, h2]
  have h3 : S.reverse.dropWhile (fun x => x = '/') = S.reverse := by
    rcases hrev : S.reverse with _ | ⟨b, r⟩
    · rfl
    · have hb : S.getLast? = some b := by
        rw [← List.head?_reverse, hrev]
        rfl
      exact List.dropWhile_cons_of_neg (by simp [hl b hb])
  rw [h3, List.reverse_reverse]

theorem urlparseSNP_http (pfx : String) (hp : pfx = "http" ∨ pfx = "https")
    (R : List Char) :
    urlparseSNP ((pfx ++ "://").data ++ R) =
      (pfx.data,
       (removeUnsafeBytes R).takeWhile (fun c => ¬ (c = '/' ∨ c = '?' ∨ c = '#')),
       splitParamsPath ((((removeUnsafeBytes R).dropWhile
          (fun c => ¬ (c = '/' ∨ c = '?' ∨ c = '#'))).takeWhile
          (fun c => c ≠ '#')).takeWhile (fun c => c ≠ '?'))) := by
  rcases hp with h | h <;> subst h <;> rfl

theorem urlparse_netloc_http (pfx : String) (hp : pfx = "http" ∨ pfx = "https")
    (R : List Char) :
    ((((removeUnsafeBytes ((pfx ++ "://").data ++ R)).dropWhile
        (fun c => c ≠ ':')).drop 1).drop 2).takeWhile
        (fun c => ¬ (c = '/' ∨ c = '?' ∨ c = '#'))
      = (removeUnsafeBytes R).takeWhile (fun c => ¬ (c = '/' ∨ c = '?' ∨ c = '#')) := by
  rcases hp with h | h <;> subst h <;> rfl

theorem mem_url_path_cases {x : Char} {host owner repo : List Char}
    (hx : x ∈ host ++ '/' :: (owner ++ '/' :: repo)) :
    x ∈ host ∨ x = '/' ∨ x ∈ owner ∨ x ∈ repo := by
  rcases List.mem_append.mp hx with h | h
  · exact Or.inl h
  · rcases List.mem_cons.mp h with h | h
    · exact Or.inr (Or.inl h)
    · rcases List.mem_append.mp h with h2 | h2
      · exact Or.inr (Or.inr (Or.inl h2))
      · rcases List.mem_cons.mp h2 with h3 | h3
        · exact Or.inr (Or.inl h3)
        · exact Or.inr (Or.inr (Or.inr h3))

theorem removeUnsafeBytes_clean {l : List Char}
    (h : ∀ c ∈ l, c ≠ '\t' ∧ c ≠ '\r' ∧ c ≠ '\n') : removeUnsafeBytes l = l := by
  unfold removeUnsafeBytes
  apply List.filter_eq_self.mpr
  intro a ha
  simp [(h a ha).1, (h a ha).2.1, (h a ha).2.2]

theorem parse_repo_url_strip_nogit (url : String) (hst : pyStripL url.data = url.data)
    (hng : endsWithL (".git").data url.data = false) :
    parse_repo_url url = parseUrlCore url.data := by
  rw [parse_repo_url_def, hst, if_neg (by simp [hng])]

theorem parse_repo_url_strip_git (url : String) (hst : pyStripL url.data = url.data)
    (hng : endsWithL (".git").data url.data = false) :
    parse_repo_url (url ++ ".git") = parseUrlCore url.data := by
  have hdata : (url ++ ".git").data = url.data ++ (".git").data := by
    simp [String.data_append]
  have hsh := pyStripL_self_head hst
  have hstrip : pyStripL (url.data ++ (".git").data) = url.data ++ (".git").data := by
    apply pyStripL_eq_self
    · intro c hc
      rcases hu : url.data with _ | ⟨a, t⟩
      · rw [hu] at hc
        simp only [List.nil_append] at hc
        rw [show ((".git").data).head? = some '.' from rfl] at hc
        simp only [Option.some.injEq] at hc
        subst hc
        decide
      · rw [hu] at hc
        simp only [List.cons_append, List.head?_cons, Option.some.injEq] at hc
        subst hc
        exact hsh.1 a (by rw [hu]; rfl)
    · intro c hc
      rw [getLast?_append_right (by decide)] at hc
      rw [show ((".git").data).getLast? = some 't' from rfl] at hc
      simp only [Option.some.injEq] at hc
      subst hc
      decide
  have hends : endsWithL (".git").data (url.data ++ (".git").data) = true :=
    endsWithL_append _ _
  rw [parse_repo_url_def, hdata, hstrip, if_pos hends]
  have hdr : dropRightL (url.data ++ (".git").data) 4 = url.data := by
    unfold dropRightL
    rw [show (url.data ++ (".git").data).length - 4 = url.data.length by
      simp [List.length_append]]
    exact List.take_left url.data (".git").data
  rw [hdr]

theorem mem_of_getLast?_eq {l : List Char} {c : Char} (h : l.getLast? = some c) : c ∈ l := by
  rcases hrev : l.reverse with _ | ⟨x, xs⟩
  · rw [← List.head?_reverse, hrev] at h
    cases h
  · rw [← List.head?_reverse, hrev] at h
    simp only [List.head?_cons, Option.some.injEq] at h
    subst h
    have hx : x ∈ l.reverse := by
      rw [hrev]
      exact List.mem_cons_self _ _
    exact List.mem_reverse.mp hx

theorem parseUrlCore_http (pfx host owner repo : String)
    (hp : pfx = "http" ∨ pfx = "https")
    (hh1 : host.data ≠ []) (ho1 : owner.data ≠ []) (hr1 : repo.data ≠ [])
    (hhc : ∀ c ∈ host.data, c ≠ '/' ∧ c ≠ '?' ∧ c ≠ '#' ∧ c ≠ '[' ∧ c ≠ ']'
        ∧ c ≠ '\t' ∧ c ≠ '\r' ∧ c ≠ '\n')
    (hoc : ∀ c ∈ owner.data, c ≠ '/' ∧ c ≠ '?' ∧ c ≠ '#' ∧ c ≠ ';'
        ∧ c ≠ '\t' ∧ c ≠ '\r' ∧ c ≠ '\n')
    (hrc : ∀ c ∈ repo.data, c ≠ '/' ∧ c ≠ '?' ∧ c ≠ '#' ∧ c ≠ ';'
        ∧ c ≠ '\t' ∧ c ≠ '\r' ∧ c ≠ '\n') :
    parseUrlCore ((pfx ++ "://").data ++ (host.data ++ '/' :: (owner.data ++ '/' :: repo.data))) =
      (pfx ++ "://" ++ host ++ "/" ++ owner ++ "/" ++ repo ++ ".git", owner, repo) := by
  have hstart : startsWithStr "http://" (String.mk
        ((pfx ++ "://").data ++ (host.data ++ '/' :: (owner.data ++ '/' :: repo.data)))) = true
      ∨ startsWithStr "https://" (String.mk
        ((pfx ++ "://").data ++ (host.data ++ '/' :: (owner.data ++ '/' :: repo.data)))) = true := by
    rcases hp with h | h <;> subst h
    · exact Or.inl (isPrefixOf_append_self _ _)
    · exact Or.inr (isPrefixOf_append_self _ _)
  have hcleanAll : ∀ x ∈ (host.data ++ '/' :: (owner.data ++ '/' :: repo.data)),
      x ≠ '\t' ∧ x ≠ '\r' ∧ x ≠ '\n' := by
    intro x hx
    rcases mem_url_path_cases hx with h | h | h | h
    · exact ⟨(hhc x h).2.2.2.2.2.1, (hhc x h).2.2.2.2.2.2.1, (hhc x h).2.2.2.2.2.2.2⟩
    · subst h
      exact ⟨by decide, by decide, by decide⟩
    · exact ⟨(hoc x h).2.2.2.2.1, (hoc x h).2.2.2.2.2.1, (hoc x h).2.2.2.2.2.2⟩
    · exact ⟨(hrc x h).2.2.2.2.1, (hrc x h).2.2.2.2.2.1, (hrc x h).2.2.2.2.2.2⟩
  have hcleanR : removeUnsafeBytes (host.data ++ '/' :: (owner.data ++ '/' :: repo.data))
      = host.data ++ '/' :: (owner.data ++ '/' :: repo.data) :=
    removeUnsafeBytes_clean hcleanAll
  have hnetAll : ∀ x ∈ host.data,
      ((fun c => ¬ (c = '/' ∨ c = '?' ∨ c = '#')) : Char → Bool) x = true := by
    intro x hx
    simp [(hhc x hx).1, (hhc x hx).2.1, (hhc x hx).2.2.1]
  have hnet : (host.data ++ '/' :: (owner.data ++ '/' :: repo.data)).takeWhile
      (fun c => ¬ (c = '/' ∨ c = '?' ∨ c = '#')) = host.data :=
    takeWhile_append_stop _ hnetAll (by decide)
  have hdropN : (host.data ++ '/' :: (owner.data ++ '/' :: repo.data)).dropWhile
      (fun c => ¬ (c = '/' ∨ c = '?' ∨ c = '#')) = '/' :: (owner.data ++ '/' :: repo.data) :=
    dropWhile_append_stop _ hnetAll (by decide)
  have hS : ∀ x ∈ ('/' :: (owner.data ++ '/' :: repo.data)), x ≠ '#' ∧ x ≠ '?' ∧ x ≠ ';' := by
    intro x hx
    rcases List.mem_cons.mp hx with h | h
    · subst h
      exact ⟨by decide, by decide, by decide⟩
    · rcases List.mem_append.mp h with h2 | h2
      · exact ⟨(hoc x h2).2.2.1, (hoc x h2).2.1, (hoc x h2).2.2.2.1⟩
      · rcases List.mem_cons.mp h2 with h3 | h3
        · subst h3
          exact ⟨by decide, by decide, by decide⟩
        · exact ⟨(hrc x h3).2.2.1, (hrc x h3).2.1, (hrc x h3).2.2.2.1⟩
  have h4 : ('/' :: (owner.data ++ '/' :: repo.data)).takeWhile (fun c => c ≠ '#')
      = '/' :: (owner.data ++ '/' :: repo.data) :=
    takeWhile_eq_self (by intro x hx; simp [(hS x hx).1])
  have h5 : ('/' :: (owner.data ++ '/' :: repo.data)).takeWhile (fun c => c ≠ '?')
      = '/' :: (owner.data ++ '/' :: repo.data) :=
    takeWhile_eq_self (by intro x hx; simp [(hS x hx).2.1])
  have hsemi : (';' : Char) ∉ ('/' :: (owner.data ++ '/' :: repo.data)) := by
    intro hm
    exact (hS ';' hm).2.2 rfl
  have hsp : splitParamsPath ('/' :: (owner.data ++ '/' :: repo.data))
      = '/' :: (owner.data ++ '/' :: repo.data) := by
    unfold splitParamsPath
    rw [if_neg hsemi]
  have hstrip : pyStripCharL '/' ('/' :: (owner.data ++ '/' :: repo.data))
      = owner.data ++ '/' :: repo.data := by
    apply pyStripCharL_slash
    · intro c hc
      rcases ho : owner.data with _ | ⟨a, t⟩
      · exact absurd ho ho1
      · rw [ho] at hc
        simp only [List.cons_append, List.head?_cons, Option.some.injEq] at hc
        subst hc
        exact (hoc a (by rw [ho]; exact List.mem_cons_self _ _)).1
    · intro c hc
      rcases hr : repo.data with _ | ⟨b, u⟩
      · exact absurd hr hr1
      · rw [hr, getLast?_append_right (by simp), List.getLast?_cons_cons] at hc
        have hcm : c ∈ repo.data := by
          rw [hr]
          exact mem_of_getLast?_eq hc
        exact (hrc c hcm).1
  have hsplit : splitOnChar '/' (owner.data ++ '/' :: repo.data)
      = [owner.data, repo.data] := by
    rw [splitOnChar_append _ (fun hm => (hoc '/' hm).1 rfl),
        splitOnChar_not_mem (fun hm => (hrc '/' hm).1 rfl)]
  simp only [parseUrlCore]
  rw [if_pos hstart, urlparseSNP_http pfx hp, hcleanR]
  rw [hdropN, h4, h5, hsp]
  simp only [hstrip, hsplit, hnet]

theorem parseUrlCore_gitat (host owner repo : String)
    (hh1 : host.data ≠ []) (ho1 : owner.data ≠ []) (hr1 : repo.data ≠ [])
    (hhc : ∀ c ∈ host.data, c ≠ ':')
    (hoc : ∀ c ∈ owner.data, c ≠ '/')
    (hrc : ∀ c ∈ repo.data, c ≠ '/') :
    parseUrlCore (("git@").data ++ (host.data ++ ':' :: (owner.data ++ '/' :: repo.data))) =
      ("git@" ++ host ++ ":" ++ owner ++ "/" ++ repo ++ ".git", owner, repo) := by
  have hf1 : startsWithStr "http://" (String.mk
      (("git@").data ++ (host.data ++ ':' :: (owner.data ++ '/' :: repo.data)))) = false := rfl
  have hf2 : startsWithStr "https://" (String.mk
      (("git@").data ++ (host.data ++ ':' :: (owner.data ++ '/' :: repo.data)))) = false := rfl
  have hgt : startsWithStr "git@" (String.mk
      (("git@").data ++ (host.data ++ ':' :: (owner.data ++ '/' :: repo.data)))) = true :=
    isPrefixOf_append_self _ _
  have hd4 : ((("git@").data ++ (host.data ++ ':' :: (owner.data ++ '/' :: repo.data)))).drop 4
      = host.data ++ ':' :: (owner.data ++ '/' :: repo.data) := rfl
  have hgat : gitAtMatch (host.data ++ ':' :: (owner.data ++ '/' :: repo.data))
      = some (host.data, owner.data, repo.data) := by
    simp only [gitAtMatch]
    rw [takeWhile_append_stop _ (fun x hx => by simp [hhc x hx]) (by decide),
        dropWhile_append_stop _ (fun x hx => by simp [hhc x hx]) (by decide)]
    dsimp only
    rw [if_neg hh1,
        takeWhile_append_stop _ (fun x hx => by simp [hoc x hx]) (by decide),
        dropWhile_append_stop _ (fun x hx => by simp [hoc x hx]) (by decide)]
    dsimp only
    rw [if_neg ho1, takeWhile_eq_self (fun x hx => by simp [hrc x hx]), if_neg hr1]
  simp only [parseUrlCore]
  rw [if_neg (fun hcon => by
        rcases hcon with h | h
        · rw [hf1] at h
          exact absurd h (by decide)
        · rw [hf2] at h
          exact absurd h (by decide)),
      if_pos hgt, hd4, hgat]

theorem parseUrlCore_bare (owner repo : String)
    (ho1 : owner.data ≠ []) (hr1 : repo.data ≠ [])
    (hoc : ∀ c ∈ owner.data, c ≠ '/') (hrc : ∀ c ∈ repo.data, c ≠ '/')
    (hh : ("http").data.isPrefixOf (owner.data ++ '/' :: repo.data) = false)
    (hg : ("git@").data.isPrefixOf (owner.data ++ '/' :: repo.data) = false) :
    parseUrlCore (owner.data ++ '/' :: repo.data) =
      ("https://github.com/" ++ owner ++ "/" ++ repo ++ ".git", owner, repo) := by
  have hf1 : startsWithStr "http://" (String.mk (owner.data ++ '/' :: repo.data)) = false :=
    isPrefixOf_append_false ("http").data ("://").data _ hh
  have hf2 : startsWithStr "https://" (String.mk (owner.data ++ '/' :: repo.data)) = false :=
    isPrefixOf_append_false ("http").data ("s://").data _ hh
  have hsplit : splitOnChar '/' (owner.data ++ '/' :: repo.data) = [owner.data, repo.data] := by
    rw [splitOnChar_append _ (fun hm => (hoc '/' hm) rfl),
        splitOnChar_not_mem (fun hm => (hrc '/' hm) rfl)]
  simp only [parseUrlCore]
  rw [if_neg (by simp [hf1, hf2]), if_neg (by simp [startsWithStr, hg]),
      if_pos ⟨List.mem_append.mpr (Or.inr (List.mem_cons_self _ _)),
              by simp [startsWithStr, hh]⟩,
      hsplit]

/-- C4 (amended): `parse_repo_url` is deterministic but not total: in
the `http(s)://` branch, `urlparse` raises an uncaught `ValueError` when
the netloc has an unbalanced square bracket (`urlparse_raises`); every
other path raises nothing.  On clean inputs the rules are: (1)
`http(s)://host/owner/repo[.git]` canonicalises to
`scheme://host/owner/repo.git`, and the stated hypotheses provably avoid
the raising set; (2) the SSH rule applies only to the literal user
`git`: `git@host:owner/repo[.git]` canonicalises to
`git@host:owner/repo.git`; (3) a bare `owner/repo` with one slash, not
starting with `http` or `git@`, canonicalises onto the default host; (4)
any input matching no rule falls back to owner `unknown`, repo the final
slash segment with every `.git` occurrence removed, and the
stripped/suffix-removed URL passed through (not the input verbatim).
All rules agree on `(owner, repo)`. -/
theorem parse_repo_url_rules :
    (∀ pfx host owner repo : String, (pfx = "http" ∨ pfx = "https") →
      host.data ≠ [] → owner.data ≠ [] → repo.data ≠ [] →
      (∀ c ∈ host.data, c ≠ '/' ∧ c ≠ '?' ∧ c ≠ '#' ∧ c ≠ '[' ∧ c ≠ ']'
          ∧ c ≠ '\t' ∧ c ≠ '\r' ∧ c ≠ '\n') →
      (∀ c ∈ owner.data, c ≠ '/' ∧ c ≠ '?' ∧ c ≠ '#' ∧ c ≠ ';'
          ∧ c ≠ '\t' ∧ c ≠ '\r' ∧ c ≠ '\n') →
      (∀ c ∈ repo.data, c ≠ '/' ∧ c ≠ '?' ∧ c ≠ '#' ∧ c ≠ ';'
          ∧ c ≠ '\t' ∧ c ≠ '\r' ∧ c ≠ '\n') →
      pyStripL (pfx ++ "://" ++ host ++ "/" ++ owner ++ "/" ++ repo).data
        = (pfx ++ "://" ++ host ++ "/" ++ owner ++ "/" ++ repo).data →
      endsWithL (".git").data (pfx ++ "://" ++ host ++ "/" ++ owner ++ "/" ++ repo).data
        = false →
      urlparse_raises (pfx ++ "://" ++ host ++ "/" ++ owner ++ "/" ++ repo).data = false
        ∧ parse_repo_url (pfx ++ "://" ++ host ++ "/" ++ owner ++ "/" ++ repo ++ ".git")
          = (pfx ++ "://" ++ host ++ "/" ++ owner ++ "/" ++ repo ++ ".git", owner, repo)
        ∧ parse_repo_url (pfx ++ "://" ++ host ++ "/" ++ owner ++ "/" ++ repo)
          = (pfx ++ "://" ++ host ++ "/" ++ owner ++ "/" ++ repo ++ ".git", owner, repo))
    ∧ (∀ host owner repo : String,
      host.data ≠ [] → owner.data ≠ [] → repo.data ≠ [] →
      (∀ c ∈ host.data, c ≠ ':') → (∀ c ∈ owner.data, c ≠ '/') →
      (∀ c ∈ repo.data, c ≠ '/') →
      pyStripL ("git@" ++ host ++ ":" ++ owner ++ "/" ++ repo).data
        = ("git@" ++ host ++ ":" ++ owner ++ "/" ++ repo).data →
      endsWithL (".git").data ("git@" ++ host ++ ":" ++ owner ++ "/" ++ repo).data = false →
      parse_repo_url ("git@" ++ host ++ ":" ++ owner ++ "/" ++ repo ++ ".git")
          = ("git@" ++ host ++ ":" ++ owner ++ "/" ++ repo ++ ".git", owner, repo)
        ∧ parse_repo_url ("git@" ++ host ++ ":" ++ owner ++ "/" ++ repo)
          = ("git@" ++ host ++ ":" ++ owner ++ "/" ++ repo ++ ".git", owner, repo))
    ∧ (∀ owner repo : String,
      owner.data ≠ [] → repo.data ≠ [] →
      (∀ c ∈ owner.data, c ≠ '/') → (∀ c ∈ repo.data, c ≠ '/') →
      startsWithStr "http" (owner ++ "/" ++ repo) = false →
      startsWithStr "git@" (owner ++ "/" ++ repo) = false →
      pyStripL (owner ++ "/" ++ repo).data = (owner ++ "/" ++ repo).data →
      endsWithL (".git").data (owner ++ "/" ++ repo).data = false →
      parse_repo_url (owner ++ "/" ++ repo)
        = ("https://github.com/" ++ owner ++ "/" ++ repo ++ ".git", owner, repo))
    ∧ (∀ url : String,
      pyStripL url.data = url.data →
      endsWithL (".git").data url.data = false →
      ¬ (startsWithStr "http://" (String.mk url.data) = true
         ∨ startsWithStr "https://" (String.mk url.data) = true) →
      ¬ startsWithStr "git@" (String.mk url.data) = true →
      ¬ (('/' : Char) ∈ url.data ∧ ¬ startsWithStr "http" (String.mk url.data) = true) →
      parse_repo_url url
        = (url, "unknown", String.mk (removeDotGit (afterLastSlash url.data)))) := by
  refine ⟨?_, ?_, ?_, ?_⟩
  · rintro pfx host owner repo hp hh1 ho1 hr1 hhc hoc hrc hst hng
    have hBdata : (pfx ++ "://" ++ host ++ "/" ++ owner ++ "/" ++ repo).data
        = (pfx ++ "://").data ++ (host.data ++ '/' :: (owner.data ++ '/' :: repo.data)) := by
      have e2 : ∀ X : List Char, ("/").data ++ X = '/' :: X := fun _ => rfl
      simp only [String.data_append, List.append_assoc, List.cons_append, e2]
    have hcleanAll : ∀ x ∈ (host.data ++ '/' :: (owner.data ++ '/' :: repo.data)),
        x ≠ '\t' ∧ x ≠ '\r' ∧ x ≠ '\n' := by
      intro x hx
      rcases mem_url_path_cases hx with h | h | h | h
      · exact ⟨(hhc x h).2.2.2.2.2.1, (hhc x h).2.2.2.2.2.2.1, (hhc x h).2.2.2.2.2.2.2⟩
      · subst h
        exact ⟨by decide, by decide, by decide⟩
      · exact ⟨(hoc x h).2.2.2.2.1, (hoc x h).2.2.2.2.2.1, (hoc x h).2.2.2.2.2.2⟩
      · exact ⟨(hrc x h).2.2.2.2.1, (hrc x h).2.2.2.2.2.1, (hrc x h).2.2.2.2.2.2⟩
    refine ⟨?_, ?_, ?_⟩
    · rw [hBdata]
      simp only [urlparse_raises]
      rw [urlparse_netloc_http pfx hp, removeUnsafeBytes_clean hcleanAll,
          takeWhile_append_stop _ (fun x hx => by
            simp [(hhc x hx).1, (hhc x hx).2.1, (hhc x hx).2.2.1]) (by decide)]
      rw [decide_eq_false_iff_not]
      rintro (⟨hbl, _⟩ | ⟨hbr, _⟩)
      · exact (hhc '[' hbl).2.2.2.1 rfl
      · exact (hhc ']' hbr).2.2.2.2.1 rfl
    · rw [parse_repo_url_strip_git _ hst hng, hBdata]
      exact parseUrlCore_http pfx host owner repo hp hh1 ho1 hr1 hhc hoc hrc
    · rw [parse_repo_url_strip_nogit _ hst hng, hBdata]
      exact parseUrlCore_http pfx host owner repo hp hh1 ho1 hr1 hhc hoc hrc
  · rintro host owner repo hh1 ho1 hr1 hhc hoc hrc hst hng
    have hBdata : ("git@" ++ host ++ ":" ++ owner ++ "/" ++ repo).data
        = ("git@").data ++ (host.data ++ ':' :: (owner.data ++ '/' :: repo.data)) := by
      have e2 : ∀ X : List Char, ("/").data ++ X = '/' :: X := fun _ => rfl
      have e3 : ∀ X : List Char, (":").data ++ X = ':' :: X := fun _ => rfl
      simp only [String.data_append, List.append_assoc, List.cons_append, e2, e3]
    constructor
    · rw [parse_repo_url_strip_git _ hst hng, hBdata]
      exact parseUrlCore_gitat host owner repo hh1 ho1 hr1 hhc hoc hrc
    · rw [parse_repo_url_strip_nogit _ hst hng, hBdata]
      exact parseUrlCore_gitat host owner repo hh1 ho1 hr1 hhc hoc hrc
  · rintro owner repo ho1 hr1 hoc hrc hh hg hst hng
    have hBdata : (owner ++ "/" ++ repo).data = owner.data ++ '/' :: repo.data := by
      have e2 : ∀ X : List Char, ("/").data ++ X = '/' :: X := fun _ => rfl
      simp only [String.data_append, List.append_assoc, List.cons_append, e2]
    rw [parse_repo_url_strip_nogit _ hst hng, hBdata]
    apply parseUrlCore_bare owner repo ho1 hr1 hoc hrc
    · unfold startsWithStr at hh
      rw [hBdata] at hh
      exact hh
    · unfold startsWithStr at hg
      rw [hBdata] at hg
      exact hg
  · rintro url hst hng hc1 hc2 hc3
    rw [parse_repo_url_strip_nogit _ hst hng]
    simp only [parseUrlCore]
    rw [if_neg hc1, if_neg hc2, if_neg hc3]
    rfl

/-- C4 counterexamples: (1) the spec sends any `user@host:owner/repo.git`
SSH form to `(itself, owner, repo)`, but the code matches only the
literal user `git`, so this URL falls into the bare-path branch and is
grafted whole onto the default host with the wrong owner; (2) on the
fallback path the returned URL is the stripped, `.git`-suffix-trimmed
one (not the input verbatim) and the repo name has every `.git`
occurrence removed (not just the suffix). -/
theorem parse_repo_url_spec_cex :
    parse_repo_url "alice@gitlab.com:grp/proj.git"
        = ("https://github.com/alice@gitlab.com:grp/proj.git", "alice@gitlab.com:grp", "proj")
    ∧ parse_repo_url "alice@gitlab.com:grp/proj.git"
        ≠ ("alice@gitlab.com:grp/proj.git", "grp", "proj")
    ∧ parse_repo_url "x/y/a.gitb.git" = ("x/y/a.gitb", "unknown", "ab")
    ∧ parse_repo_url "x/y/a.gitb.git" ≠ ("x/y/a.gitb.git", "unknown", "a.gitb") :=
  ⟨rfl, by decide, rfl, by decide⟩

theorem parse_repo_url_rules_witness :
    urlparse_raises ("https://gitlab.com/alice/proj").data = false
    ∧ parse_repo_url "https://gitlab.com/alice/proj.git"
        = ("https://gitlab.com/alice/proj.git", "alice", "proj")
    ∧ parse_repo_url "git@gitlab.com:alice/proj"
        = ("git@gitlab.com:alice/proj.git", "alice", "proj")
    ∧ parse_repo_url "alice/proj"
        = ("https://github.com/alice/proj.git", "alice", "proj")
    ∧ parse_repo_url "weird" = ("weird", "unknown", "weird") :=
  ⟨(parse_repo_url_rules.1 "https" "gitlab.com" "alice" "proj" (Or.inr rfl)
      (by decide) (by decide) (by decide) (by decide) (by decide) (by decide)
      (by decide) (by decide)).1,
   (parse_repo_url_rules.1 "https" "gitlab.com" "alice" "proj" (Or.inr rfl)
      (by decide) (by decide) (by decide) (by decide) (by decide) (by decide)
      (by decide) (by decide)).2.1,
   (parse_repo_url_rules.2.1 "gitlab.com" "alice" "proj"
      (by decide) (by decide) (by decide) (by decide) (by decide) (by decide)
      (by decide) (by decide)).2,
   parse_repo_url_rules.2.2.1 "alice" "proj"
      (by decide) (by decide) (by decide) (by decide) (by decide) (by decide)
      (by decide) (by decide),
   parse_repo_url_rules.2.2.2 "weird" (by decide) (by decide) (by decide)
      (by decide) (by decide)⟩

-- CLAIMS-INSERT-POINT

end Gitpm
